import Mathlib

/-!
# sds_recover: embedding of `sds_recover.c`

The definitions below follow `src/sds_recover.c` function by function.

Modelling conventions.

* A byte is a natural number; a buffer or a file is a `List Nat`.
* A C pointer into a buffer is an index.  `scan_sds_datum` only ever moves
  forward from its argument `_ptr`, so it receives the bytes of the enclosing
  object from `_ptr` to the end of the object, and its local pointers are
  offsets from `_ptr`.  `NULL` is `none`.
* Undefined behaviour is a fault, `none`: a read outside the object (a
  `strlen` that meets no terminator before the object ends, a dereference
  past the end), `strlen(NULL)`, and an `atoi` whose value does not fit `int`.
* `int` quantities are unbounded integers; unsigned 32-bit arithmetic is
  written with an explicit `% 2 ^ 32`.
* A `while` loop is a function recursive on an iteration budget.
-/

namespace SdsRecover

def SDS_HDR_SIZE : Nat := 16

def SDS_INT : Int := 1
def SDS_CHAR : Int := 6
def SDS_STRING : Int := 7
def SDS_FLOAT : Int := 16
def SDS_STRUCT : Int := 21
def SDS_VOID : Int := 22
def SDS_STRUCT_LIST : Int := 24
def SDS_BASE64 : Int := 27
def SDS_TYPEMAX : Int := 28

def HEADER_MAX : Nat := 8

/-- The struct `sds_record`.  The field `type` of the source is never written:
its bytes are indeterminate and it is left out; `data_buffer` holds the bytes
of the flexible array member. -/
structure sds_record where
  offset : Nat
  header : Int
  h_spacer : Int
  size : Int
  data_buffer : List Nat
deriving DecidableEq, Repr

/-- Value of an `unsigned int` after conversion to `int`. -/
def to_int32 (n : Int) : Int :=
  if n % 2 ^ 32 < 2 ^ 31 then n % 2 ^ 32 else n % 2 ^ 32 - 2 ^ 32

/-- Value of an `int` after conversion to `unsigned int`. -/
def to_uint32 (n : Int) : Nat := (n % 2 ^ 32).toNat

/-! ## validate_h_spacer -/

def h_spacers : List Nat := [0x0, 0x83ff, 0x7ff2, 0x2abb]

/-- The loop `while (--idx >= 0)` of `validate_h_spacer`; the argument is the
value of `idx` before the decrement. -/
def validate_h_spacer_loop (hs_value : Nat) : Nat → Int
  | 0 => 0
  | idx + 1 => if h_spacers.getD idx 0 = hs_value then 1 else validate_h_spacer_loop hs_value idx

def validate_h_spacer (hs_value : Nat) : Int :=
  validate_h_spacer_loop hs_value h_spacers.length

/-! ## C strings: strlen and atoi -/

/-- The C string that starts at the head of `m`: the bytes before the first
zero byte, or a fault when the object ends before a zero byte. -/
def cstr : List Nat → Option (List Nat)
  | [] => none
  | b :: bs => if b = 0 then some [] else (cstr bs).map (fun s => b :: s)

def strlen (m : List Nat) : Option Nat := (cstr m).map List.length

def isspace (c : Nat) : Bool := c = 32 || (9 ≤ c && c ≤ 13)

def isdigit (c : Nat) : Bool := 48 ≤ c && c ≤ 57

/-- Decimal digits of `atoi`, accumulated left to right until the first byte
that is not a digit. -/
def atoi_digits : List Nat → Nat → Nat
  | [], acc => acc
  | c :: cs, acc => if isdigit c then atoi_digits cs (acc * 10 + (c - 48)) else acc

/-- Optional sign, then digits. -/
def atoi_signed : List Nat → Int
  | [] => 0
  | c :: cs =>
    if c = 45 then - (atoi_digits cs 0 : Int)
    else if c = 43 then (atoi_digits cs 0 : Int)
    else (atoi_digits (c :: cs) 0 : Int)

/-- Leading white space, then sign and digits. -/
def atoi_value : List Nat → Int
  | [] => 0
  | c :: cs => if isspace c then atoi_value cs else atoi_signed (c :: cs)

/-- The call `atoi(p)` on the memory `m` that starts at `p`. -/
def atoi (m : List Nat) : Option Int :=
  match cstr m with
  | none => none
  | some s =>
    if - 2 ^ 31 ≤ atoi_value s ∧ atoi_value s < 2 ^ 31 then some (atoi_value s) else none

/-! ## scan_sds_datum -/

/-- Local variables of `scan_sds_datum`.  `pname` is the buffer head, offset 0. -/
structure scan_state where
  ptr : Nat
  sz : Int
  ptype : Option Nat
  plen : Option Nat
  pdata : Option Nat
  name_length : Int
  type_length : Int
  len_length : Int
  data_length : Int
  data_type : Int
  list_idx : Nat
deriving DecidableEq, Repr

/-- What a block of the loop body does: return from the function, or go on. -/
inductive scan_step where
  | ret (v : Int)
  | next (st : scan_state)
deriving DecidableEq, Repr

def known_type (t : Int) : Bool :=
  t = SDS_INT || t = SDS_CHAR || t = SDS_STRING || t = SDS_FLOAT ||
  t = SDS_STRUCT || t = SDS_VOID || t = SDS_STRUCT_LIST || t = SDS_BASE64

/-- The block "data type field checking" (source lines 101-142). -/
def type_check (buf : List Nat) (st : scan_state) : Option scan_step :=
  match st.ptype with
  | none => some (.next st)
  | some pt =>
    if st.data_type = -1 then
      match strlen (buf.drop pt), atoi (buf.drop pt) with
      | some n, some t =>
        if t ≥ SDS_TYPEMAX then some (.ret 0)
        else if ! known_type t then some (.ret 0)
        else
          match strlen buf with
          | none => none
          | some nl =>
            if ((nl : Int) + 1 = 0) ∨ ((nl : Int) + 1 ≠ (st.ptr : Int)) then some (.ret 0)
            else some (.next { st with
              type_length := (n : Int) + 1, data_type := t, name_length := (nl : Int) + 1 })
      | _, _ => none
    else some (.next st)

/-- The block "data length field checking" (source lines 148-157). -/
def length_check (buf : List Nat) (st : scan_state) : Option scan_step :=
  match st.plen with
  | none => some (.next st)
  | some pl =>
    if st.data_length = -1 then
      match strlen (buf.drop pl), atoi (buf.drop pl) with
      | some n, some d =>
        if d = 0 ∨ d ≥ st.sz then some (.ret 0)
        else some (.next { st with
          len_length := (n : Int) + 1, data_length := d, sz := d + 1 })
      | _, _ => none
    else some (.next st)

/-- The assignment through `list[_list_idx++]`. -/
def set_field (st : scan_state) : scan_state :=
  match st.list_idx with
  | 0 => { st with ptype := some (st.ptr + 1), list_idx := 1 }
  | 1 => { st with plen := some (st.ptr + 1), list_idx := 2 }
  | k => { st with pdata := some (st.ptr + 1), list_idx := k + 1 }

/-- The code after the loop (source lines 193-212). -/
def scan_finish (buf : List Nat) (st : scan_state) : Option Int :=
  if st.data_type = SDS_INT ∨ st.data_type = SDS_STRING ∨ st.data_type = SDS_FLOAT then
    match st.pdata with
    | none => none
    | some pd =>
      match strlen (buf.drop pd) with
      | none => none
      | some n =>
        if (n : Int) + 1 ≠ st.data_length then some 0
        else some (st.name_length + st.type_length + st.len_length + st.data_length)
  else some (st.name_length + st.type_length + st.len_length + st.data_length)

/-- One pass through the loop body, `sz` already decremented: a return value,
a `break`, or the state for the next test of the loop condition. -/
inductive body_result where
  | ret (v : Int)
  | brk (st : scan_state)
  | cont (st : scan_state)
deriving DecidableEq, Repr

/-- The test `if ((int)*_ptr == 0)` with its block, and `_ptr++` (source lines
164-176). -/
def zero_check (buf : List Nat) (st : scan_state) : Option body_result :=
  match buf.get? st.ptr with
  | none => none
  | some b =>
    if b = 0 then
      if (set_field st).list_idx ≥ 3 then some (.brk (set_field st))
      else some (.cont { set_field st with ptr := st.ptr + 1 })
    else some (.cont { st with ptr := st.ptr + 1 })

def scan_body (buf : List Nat) (st : scan_state) : Option body_result :=
  match type_check buf st with
  | none => none
  | some (.ret v) => some (.ret v)
  | some (.next st1) =>
    match length_check buf st1 with
    | none => none
    | some (.ret v) => some (.ret v)
    | some (.next st2) => zero_check buf st2

/-- The loop `while (sz-- > 0)` followed by the code after it.  The budget is
an upper bound of `sz`, which never grows inside the loop, so that the loop
condition is false whenever the budget is used up (`scan_loop_fuel`). -/
def scan_loop (buf : List Nat) : Nat → scan_state → Option Int
  | 0, st => if st.sz > 0 then none else scan_finish buf { st with sz := st.sz - 1 }
  | fuel + 1, st =>
    if st.sz > 0 then
      match scan_body buf { st with sz := st.sz - 1 } with
      | none => none
      | some (.ret v) => some v
      | some (.brk st1) => scan_finish buf st1
      | some (.cont st1) => scan_loop buf fuel st1
    else scan_finish buf { st with sz := st.sz - 1 }

def scan_init (sz : Int) : scan_state :=
  { ptr := 0, sz := sz, ptype := none, plen := none, pdata := none,
    name_length := -1, type_length := -1, len_length := -1, data_length := -1,
    data_type := -1, list_idx := 0 }

/-- The function `scan_sds_datum(_ptr, sz)`; `buf` is the memory from `_ptr` to
the end of the object `_ptr` points into. -/
def scan_sds_datum (buf : List Nat) (sz : Int) : Option Int :=
  scan_loop buf sz.toNat (scan_init sz)

/-! ## validate_sds_data -/

/-- Result of a loop that need not terminate. -/
inductive outcome where
  | ret (v : Int)
  | fault
  | out_of_budget
deriving DecidableEq, Repr

/-- The bytes of the field `size`, which the struct holds in the 4 bytes before
`data_buffer` (`int` of 4 bytes, least significant byte first). -/
def size_field (size : Int) : List Nat :=
  [to_uint32 size % 256, to_uint32 size / 256 % 256, to_uint32 size / 65536 % 256,
   to_uint32 size / 16777216 % 256]

/-- The loop of `validate_sds_data` on the memory `buffer`, which starts with
the field `size` and goes on with `data_buffer`: `data` is the offset of the
pointer `data` from the start of the field `size` (4 at `data_buffer`), `size`
the bytes left to check.  After a negative scanner result the pointer is before
`data_buffer` and the next scan reads the field `size`.  The field before it
is `type`, which is never written: a scan that starts there reads
indeterminate bytes and is a fault. -/
def validate_loop (buffer : List Nat) : Nat → Int → Int → outcome
  | 0, _, size => if size > 0 then .out_of_budget else .ret size
  | fuel + 1, data, size =>
    if size > 0 then
      if data < 0 then .fault
      else
        match scan_sds_datum (buffer.drop data.toNat) size with
        | none => .fault
        | some valid =>
          if valid = 0 then .ret size
          else validate_loop buffer fuel (data + valid) (size - valid)
    else .ret size

/-- The function `validate_sds_data(sds)`, run for at most `fuel` iterations. -/
def validate_sds_data (fuel : Nat) (sds : sds_record) : outcome :=
  validate_loop (size_field sds.size ++ sds.data_buffer) fuel 4 sds.size

/-! ## get_record -/

/-- An open file: descriptor number, contents, and current position. -/
structure file_desc where
  fd : Int
  bytes : List Nat
  pos : Nat
deriving DecidableEq, Repr

/-- The call `lseek(fd, off, SEEK_SET)`: the new position, or -1 and an
unchanged position for a negative offset. -/
def lseek (f : file_desc) (off : Int) : file_desc × Int :=
  if off < 0 then (f, -1) else ({ f with pos := off.toNat }, off)

/-- The call `read(fd, buf, count)` on a regular file: the bytes available at
the position, at most `count` of them. -/
def read (f : file_desc) (count : Nat) : file_desc × List Nat :=
  let got := (f.bytes.drop f.pos).take count
  ({ f with pos := f.pos + got.length }, got)

/-- A 32-bit field of the header buffer, read through an `unsigned int`
pointer on a little-endian host: least significant byte first. -/
def hdr_field (hdr_buf : List Nat) (i : Nat) : Nat :=
  (hdr_buf.getD i 0 % 256) + 256 * (hdr_buf.getD (i + 1) 0 % 256) +
  65536 * (hdr_buf.getD (i + 2) 0 % 256) + 16777216 * (hdr_buf.getD (i + 3) 0 % 256)

/-- The function `get_record(fd, offset, f_size)`.  `malloc` is taken to
succeed. -/
def get_record (f : file_desc) (offset : Int) (f_size : Int) : file_desc × Option sds_record :=
  if f.fd ≤ 2 then (f, none)
  else
    let (f1, o_rc) := lseek f offset
    if o_rc ≠ offset then (f1, none)
    else
      let (f2, hdr_buf) := read f1 SDS_HDR_SIZE
      if hdr_buf.length ≠ SDS_HDR_SIZE then (f2, none)
      else
        let int_hdr := hdr_field hdr_buf 0
        let hdr_spacer := hdr_field hdr_buf 4
        let msg_size := hdr_field hdr_buf 8
        let msg_spacer := hdr_field hdr_buf 12
        let header_candidate : Bool :=
          decide (int_hdr ≤ HEADER_MAX) && decide (validate_h_spacer hdr_spacer ≠ 0) &&
          decide (msg_spacer = 0)
        if (! header_candidate) &&
            (decide (int_hdr < HEADER_MAX) ||
             decide (((msg_size : Int) + offset) % 2 ^ 32 < f_size % 2 ^ 32) ||
             decide (validate_h_spacer hdr_spacer ≠ 0)) then (f2, none)
        else
          let (f3, data) := read f2 msg_size
          if data.length ≠ msg_size then (f3, none)
          else (f3, some {
            offset := to_uint32 offset,
            header := to_int32 int_hdr,
            h_spacer := to_int32 hdr_spacer,
            size := to_int32 msg_size,
            data_buffer := data })

/-! ## Auxiliary definitions for the statements -/

/-- The loop of `scan_sds_datum` started in state `st`. -/
def scan_run (buf : List Nat) (st : scan_state) : Option Int :=
  scan_loop buf st.sz.toNat st

/-- The three text fields of a datum, each followed by its terminator. -/
def fields (name ttxt ltxt : List Nat) : List Nat :=
  name ++ 0 :: (ttxt ++ 0 :: (ltxt ++ [0]))

/-- Decimal text of a positive number, most significant digit first, without
leading zeros. -/
def dec_text (n : Nat) : List Nat := ((Nat.digits 10 n).reverse).map (fun d => d + 48)

/-- A datum as it is written into a payload: name, type code, declared length
and value bytes. -/
structure datum where
  name : List Nat
  type : Nat
  length : Nat
  value : List Nat
deriving DecidableEq, Repr

/-- The encoding name,0,type,0,length,0,value. -/
def datum.encode (d : datum) : List Nat :=
  d.name ++ 0 :: (dec_text d.type ++ 0 :: (dec_text d.length ++ 0 :: d.value))

/-- A well-formed datum: a name of non-zero bytes, one of the eight type codes,
a declared length of at least 1, a value of exactly that many bytes which, for
INT, STRING and FLOAT, is non-zero bytes followed by one zero terminator. -/
def datum.well_formed (d : datum) : Prop :=
  (∀ b ∈ d.name, b ≠ 0) ∧ d.type ∈ [1, 6, 7, 16, 21, 22, 24, 27] ∧ 1 ≤ d.length ∧
  d.value.length = d.length ∧
  (d.type ∈ [1, 7, 16] → (∀ b ∈ d.value.dropLast, b ≠ 0) ∧ d.value.getLast? = some 0)

instance (d : datum) : Decidable d.well_formed := by
  unfold datum.well_formed; infer_instance

/-- The payload made of the encodings of the datums of a list, in order. -/
def payload_of : List datum → List Nat
  | [] => []
  | d :: ds => d.encode ++ payload_of ds

/-- The 16-byte window of a file at an offset. -/
def header_window (file : List Nat) (offset : Nat) : List Nat := (file.drop offset).take 16

/-- The acceptance rule of the specification: headerId ≤ 8, spacer in the
allowlist, trailer equal to 0. -/
def header_accepted (w : List Nat) : Prop :=
  hdr_field w 0 ≤ 8 ∧ hdr_field w 4 ∈ [0x0, 0x83ff, 0x7ff2, 0x2abb] ∧ hdr_field w 12 = 0

instance (w : List Nat) : Decidable (header_accepted w) := by
  unfold header_accepted; infer_instance

/-- Reference definition of record reading, written from the specification: a
record is read at `offset` exactly when the window there is accepted and the
declared payload lies inside the file; its fields are the offset and the
window's headerId, spacer and declaredSize, its payload the declaredSize bytes
after the header. -/
def get_record_spec (file : List Nat) (offset : Nat) : Option sds_record :=
  if header_accepted (header_window file offset) ∧
      offset + 16 + hdr_field (header_window file offset) 8 ≤ file.length then
    some {
      offset := offset,
      header := hdr_field (header_window file offset) 0,
      h_spacer := hdr_field (header_window file offset) 4,
      size := hdr_field (header_window file offset) 8,
      data_buffer := (file.drop (offset + 16)).take (hdr_field (header_window file offset) 8) }
  else none

/-! ## Concrete inputs -/

/-- The minimal datum name "a", type "1", length "2", value "x" with its
terminator; its encoding is the 8 bytes `a 0 1 0 2 0 x 0`. -/
def sample_datum : datum := { name := [97], type := 1, length := 2, value := [120, 0] }

/-- Five copies of the sample datum: a well-formed payload of 40 bytes. -/
def sample_payload : List Nat :=
  [97, 0, 49, 0, 50, 0, 120, 0, 97, 0, 49, 0, 50, 0, 120, 0, 97, 0, 49, 0, 50, 0, 120, 0,
   97, 0, 49, 0, 50, 0, 120, 0, 97, 0, 49, 0, 50, 0, 120, 0]

/-- A record of declared size 45: the 40-byte sample payload followed by the
five garbage bytes `ZZZZZ`, which hold no terminated field. -/
def garbage_record : sds_record :=
  { offset := 0, header := 1, h_spacer := 0, size := 45,
    data_buffer := sample_payload ++ [90, 90, 90, 90, 90] }

/-- A 32-byte file: a 16-byte window with headerId 9, spacer 1, declaredSize 16
and trailer 0, followed by 16 payload bytes. -/
def stray_file : file_desc :=
  { fd := 3, pos := 0,
    bytes := [9, 0, 0, 0, 1, 0, 0, 0, 16, 0, 0, 0, 0, 0, 0, 0,
              97, 0, 49, 0, 50, 0, 120, 0, 97, 0, 49, 0, 50, 0, 120, 0] }

/-- A 24-byte file: an accepted header (headerId 1, spacer 0, declaredSize 8,
trailer 0) followed by the encoding of the sample datum. -/
def sample_file : file_desc :=
  { fd := 3, pos := 0,
    bytes := [1, 0, 0, 0, 0, 0, 0, 0, 8, 0, 0, 0, 0, 0, 0, 0, 97, 0, 49, 0, 50, 0, 120, 0] }

/-! ## print_record -/

/-- The value column of a printed line: nothing for STRUCT, the `int` read at
the value for VOID (`'%x'`), the C string at the value otherwise (`'%s'`). -/
inductive entry_value where
  | nested
  | word (w : Nat)
  | text (s : List Nat)
deriving DecidableEq, Repr

/-- One line written by `print_record`: the number of the recursion level
(the value of the static `indent`; `indent + 1` tabs are printed), then the
arguments of the `fprintf`. -/
structure print_entry where
  depth : Nat
  name : List Nat
  type : Int
  length : Int
  value : entry_value
deriving DecidableEq, Repr

/-- Result of a walk that writes lines and need not terminate. -/
inductive walk_result where
  | done (es : List print_entry)
  | fault
  | out_of_budget
deriving DecidableEq, Repr

/-- Lines written before the rest of a walk. -/
def walk_result.prepend (es : List print_entry) : walk_result → walk_result
  | .done es2 => .done (es ++ es2)
  | .fault => .fault
  | .out_of_budget => .out_of_budget

/-- The `do ... while (ct < sz)` loop of `print_record(buffer, sz)` from the
value `ct` on; `buffer` is the memory from the pointer `buffer` to the end of
the object, `indent` the value of the static counter.  The budget counts loop
passes and recursion levels. -/
def print_record_loop : Nat → List Nat → Int → Nat → Int → walk_result
  | 0, _, _, _, _ => .out_of_budget
  | fuel + 1, buffer, sz, indent, ct =>
    if ct < 0 then .fault
    else
      match cstr (buffer.drop ct.toNat) with
      | none => .fault
      | some name_buf =>
        let ct1 := ct + name_buf.length + 1
        match cstr (buffer.drop ct1.toNat), atoi (buffer.drop ct1.toNat) with
        | some type_buf, some _type =>
          let ct2 := ct1 + type_buf.length + 1
          match cstr (buffer.drop ct2.toNat), atoi (buffer.drop ct2.toNat) with
          | some length_buf, some _length =>
            let ct3 := ct2 + length_buf.length + 1
            let pl_data := buffer.drop ct3.toNat
            let lines : walk_result :=
              if _type = SDS_VOID then
                if 4 ≤ pl_data.length then
                  .done [⟨indent, name_buf, _type, _length, .word (to_uint32 (hdr_field pl_data 0))⟩]
                else .fault
              else if _type = SDS_STRUCT then
                walk_result.prepend [⟨indent, name_buf, _type, _length, .nested⟩]
                  (print_record_loop fuel pl_data _length (indent + 1) 0)
              else
                match cstr pl_data with
                | none => .fault
                | some s => .done [⟨indent, name_buf, _type, _length, .text s⟩]
            match lines with
            | .done es =>
              if ct3 + _length < sz then
                walk_result.prepend es (print_record_loop fuel buffer sz indent (ct3 + _length))
              else .done es
            | .fault => .fault
            | .out_of_budget => .out_of_budget
          | _, _ => .fault
        | _, _ => .fault

/-- The function `print_record(buffer, sz)`, run within a budget. -/
def print_record (fuel : Nat) (buffer : List Nat) (sz : Int) (indent : Nat) : walk_result :=
  print_record_loop fuel buffer sz indent 0

/-- The function `print_sds_record(sds)` for a record that is not `NULL`: the
lines of `print_record` under the header line, which shows the fields of
`sds`. -/
def print_sds_record (fuel : Nat) (sds : sds_record) : walk_result :=
  print_record fuel sds.data_buffer sds.size 0

/-! ## main -/

/-- What the main loop writes: the three diagnostics of the error stream, a
record on the data stream (index, record, lines of the record walk), and the
two closing messages. -/
inductive event where
  | hdr_cor_err (offset : Int)
  | valid_hdr (offset : Int)
  | sds_data_err (offset : Int) (position : Int)
  | record (index : Int) (sds : sds_record) (lines : List print_entry)
  | end_of_file
  | corruption_total (count : Int)
deriving DecidableEq, Repr

/-- Variables of `main` during the loop, with the open file and what has been
written so far. -/
structure main_state where
  fh : file_desc
  offset : Int
  searching : Int
  record_count : Int
  corruption_count : Int
  output : List event
deriving DecidableEq, Repr

/-- Result of a part of `main` that need not terminate. -/
inductive main_result where
  | ok (st : main_state)
  | fault
  | out_of_budget
deriving DecidableEq, Repr

/-- One pass through the body of `while (1)` after the end-of-file test
(source lines 509-552); `st_size` is `stat_buffer.st_size`. -/
def main_step (fuel : Nat) (st_size : Int) (st : main_state) : main_result :=
  match get_record st.fh st.offset (to_int32 st_size) with
  | (fh1, none) =>
    .ok { fh := fh1,
          offset := st.offset + 1,
          searching := 1,
          record_count := st.record_count,
          corruption_count :=
            if st.searching = 0 then st.corruption_count + 1 else st.corruption_count,
          output :=
            if st.searching = 0 then st.output ++ [.hdr_cor_err st.offset] else st.output }
  | (fh1, some next_sds) =>
    match validate_sds_data fuel next_sds with
    | .fault => .fault
    | .out_of_budget => .out_of_budget
    | .ret sds_error =>
      let output1 :=
        if sds_error = 0 then
          if st.searching = 1 then st.output ++ [.valid_hdr st.offset] else st.output
        else st.output
      let searching1 := if sds_error = 0 then 0 else st.searching
      if sds_error ≠ 0 then
        .ok { fh := fh1,
              offset := st.offset + (next_sds.size + SDS_HDR_SIZE - sds_error),
              searching := 1,
              record_count := st.record_count,
              corruption_count := st.corruption_count + 1,
              output := output1 ++ [.sds_data_err st.offset (next_sds.size - sds_error)] }
      else
        match print_sds_record fuel next_sds with
        | .fault => .fault
        | .out_of_budget => .out_of_budget
        | .done lines =>
          .ok { fh := fh1,
                offset := st.offset + (next_sds.size + SDS_HDR_SIZE - sds_error),
                searching := searching1,
                record_count := st.record_count + 1,
                corruption_count := st.corruption_count,
                output := output1 ++ [.record st.record_count next_sds lines] }

/-- The loop `while (1)` of `main`. -/
def main_loop : Nat → Int → main_state → main_result
  | 0, _, _ => .out_of_budget
  | fuel + 1, st_size, st =>
    if st.offset ≥ st_size then .ok { st with output := st.output ++ [.end_of_file] }
    else
      match main_step fuel st_size st with
      | .ok st1 => main_loop fuel st_size st1
      | .fault => .fault
      | .out_of_budget => .out_of_budget

/-- The state of `main` when the loop is entered. -/
def main_init (fh : file_desc) : main_state :=
  { fh := fh, offset := 0, searching := 1, record_count := 0, corruption_count := 0,
    output := [] }

/-- The function `main` from the opened file on: the loop, then the closing
message with the corruption count. -/
def sds_main (fuel : Nat) (fh : file_desc) (st_size : Int) : main_result :=
  match main_loop fuel st_size (main_init fh) with
  | .ok st => .ok { st with output := st.output ++ [.corruption_total st.corruption_count] }
  | .fault => .fault
  | .out_of_budget => .out_of_budget

/-! ## The scanner without the name test -/

/-- The block "data type field checking" with the test on `name_length`
(source lines 136-141) taken out; everything else is as in `type_check`. -/
def type_check_no_name_test (buf : List Nat) (st : scan_state) : Option scan_step :=
  match st.ptype with
  | none => some (.next st)
  | some pt =>
    if st.data_type = -1 then
      match strlen (buf.drop pt), atoi (buf.drop pt) with
      | some n, some t =>
        if t ≥ SDS_TYPEMAX then some (.ret 0)
        else if ! known_type t then some (.ret 0)
        else
          match strlen buf with
          | none => none
          | some nl =>
            some (.next { st with
              type_length := (n : Int) + 1, data_type := t, name_length := (nl : Int) + 1 })
      | _, _ => none
    else some (.next st)

def scan_body_no_name_test (buf : List Nat) (st : scan_state) : Option body_result :=
  match type_check_no_name_test buf st with
  | none => none
  | some (.ret v) => some (.ret v)
  | some (.next st1) =>
    match length_check buf st1 with
    | none => none
    | some (.ret v) => some (.ret v)
    | some (.next st2) => zero_check buf st2

def scan_loop_no_name_test (buf : List Nat) : Nat → scan_state → Option Int
  | 0, st => if st.sz > 0 then none else scan_finish buf { st with sz := st.sz - 1 }
  | fuel + 1, st =>
    if st.sz > 0 then
      match scan_body_no_name_test buf { st with sz := st.sz - 1 } with
      | none => none
      | some (.ret v) => some v
      | some (.brk st1) => scan_finish buf st1
      | some (.cont st1) => scan_loop_no_name_test buf fuel st1
    else scan_finish buf { st with sz := st.sz - 1 }

/-- The function `scan_sds_datum` with the name test taken out. -/
def scan_sds_datum_no_name_test (buf : List Nat) (sz : Int) : Option Int :=
  scan_loop_no_name_test buf sz.toNat (scan_init sz)

/-- The state in which the name test is reached: no zero byte has been met
before `ptype` was set, `ptype` is one past the first zero byte, and `_ptr` is
still at `ptype` as long as the type has not been read. -/
def name_invariant (buf : List Nat) (st : scan_state) : Prop :=
  match st.ptype with
  | none => st.plen = none ∧ st.list_idx = 0 ∧ ∀ b ∈ buf.take st.ptr, b ≠ 0
  | some pt => 1 ≤ st.list_idx ∧ strlen buf = some (pt - 1) ∧ 1 ≤ pt ∧
      (st.data_type = -1 → st.ptr = pt ∧ st.plen = none)

/-- The value column that `print_record` writes for a datum of a type other
than STRUCT whose value starts at the head of `pl_data`; `none` when the read
leaves the object. -/
def inline_value (_type : Int) (pl_data : List Nat) : Option entry_value :=
  if _type = SDS_VOID then
    if 4 ≤ pl_data.length then some (.word (to_uint32 (hdr_field pl_data 0))) else none
  else (cstr pl_data).map .text

/-- The lines `print_record` writes for one datum whose three text fields are
`name_buf`, type `_type` and length `_length`, the value starting at the head
of `pl_data`. -/
def datum_lines (fuel : Nat) (indent : Nat) (name_buf : List Nat) (_type _length : Int)
    (pl_data : List Nat) : walk_result :=
  if _type = SDS_STRUCT then
    walk_result.prepend [⟨indent, name_buf, _type, _length, .nested⟩]
      (print_record_loop fuel pl_data _length (indent + 1) 0)
  else
    match inline_value _type pl_data with
    | none => .fault
    | some v => .done [⟨indent, name_buf, _type, _length, v⟩]

/-! ## Further concrete inputs -/

/-- A record of declared size 6 with the payload `a b 0 2 1 0`: name "ab" and
type text "21", with nothing after the type field. -/
def hang_record : sds_record :=
  { offset := 0, header := 1, h_spacer := 0, size := 6, data_buffer := [97, 98, 0, 50, 49, 0] }

/-- A 22-byte file: an accepted header (headerId 1, spacer 0, declaredSize 6,
trailer 0) followed by the payload of `hang_record`. -/
def hang_file : file_desc :=
  { fd := 3, pos := 0,
    bytes := [1, 0, 0, 0, 0, 0, 0, 0, 6, 0, 0, 0, 0, 0, 0, 0, 97, 98, 0, 50, 49, 0] }

/-- A record of declared size 16: name "a", type "6", length text "10" and 9
value bytes. -/
def overrun_record : sds_record :=
  { offset := 0, header := 1, h_spacer := 0, size := 16,
    data_buffer := [97, 0, 54, 0, 49, 48, 0, 1, 2, 3, 4, 5, 6, 7, 8, 9] }

/-- A record of declared size 11 with one STRUCT datum: name "s", type "21",
length "4" and the value bytes `ZZZZ`, which hold no datum. -/
def struct_garbage_record : sds_record :=
  { offset := 0, header := 1, h_spacer := 0, size := 11,
    data_buffer := [115, 0, 50, 49, 0, 52, 0, 90, 90, 90, 90] }

/-- The encoding of a datum named "s" with declared length 16 and type code
`t`, whose value is two encodings of the sample datum. -/
def nested_payload (t : Nat) : List Nat :=
  [115, 0, 50, 48 + t, 0, 49, 54, 0,
   97, 0, 49, 0, 50, 0, 120, 0, 97, 0, 49, 0, 50, 0, 120, 0]

/-- A 34-byte file: 10 junk bytes `ff`, then an accepted header (headerId 1,
spacer 0, declaredSize 8, trailer 0) and the encoding of the sample datum. -/
def resync_file : file_desc :=
  { fd := 3, pos := 0,
    bytes := [255, 255, 255, 255, 255, 255, 255, 255, 255, 255,
              1, 0, 0, 0, 0, 0, 0, 0, 8, 0, 0, 0, 0, 0, 0, 0,
              97, 0, 49, 0, 50, 0, 120, 0] }

/-- A 29-byte file: an accepted header with declaredSize 13, the encoding of
the sample datum, and the 5 bytes `A 0 9 9 0` (name "A", type text "99"). -/
def corrupt_file : file_desc :=
  { fd := 3, pos := 0,
    bytes := [1, 0, 0, 0, 0, 0, 0, 0, 13, 0, 0, 0, 0, 0, 0, 0,
              97, 0, 49, 0, 50, 0, 120, 0, 65, 0, 57, 57, 0] }

/-- A record of declared size 16 with one STRUCT datum, name "s", type "21",
length "9", whose 9 value bytes are name "a", type "6", length text "-7" and
the value `x 0`. -/
def print_hang_record : sds_record :=
  { offset := 0, header := 1, h_spacer := 0, size := 16,
    data_buffer := [115, 0, 50, 49, 0, 57, 0, 97, 0, 54, 0, 45, 55, 0, 120, 0] }

/-- A 32-byte file: an accepted header (headerId 1, spacer 0, declaredSize 16,
trailer 0) followed by the payload of `print_hang_record`. -/
def print_hang_file : file_desc :=
  { fd := 3, pos := 0,
    bytes := [1, 0, 0, 0, 0, 0, 0, 0, 16, 0, 0, 0, 0, 0, 0, 0,
              115, 0, 50, 49, 0, 57, 0, 97, 0, 54, 0, 45, 55, 0, 120, 0] }

/-- A 17-byte file: an accepted header (headerId 1, spacer 0, declaredSize 1,
trailer 0) followed by the payload byte `Z`. -/
def tiny_file : file_desc :=
  { fd := 3, pos := 0,
    bytes := [1, 0, 0, 0, 0, 0, 0, 0, 1, 0, 0, 0, 0, 0, 0, 0, 90] }

/-- A 61-byte file: an accepted header (headerId 1, spacer 0, declaredSize 45,
trailer 0) followed by the payload of `garbage_record`. -/
def garbage_file : file_desc :=
  { fd := 3, pos := 0,
    bytes := [1, 0, 0, 0, 0, 0, 0, 0, 45, 0, 0, 0, 0, 0, 0, 0] ++
      (sample_payload ++ [90, 90, 90, 90, 90]) }

/-! # Lemmas -/

/-! ## Lemmas: C strings -/

theorem cstr_append_zero (s rest : List Nat) (hs : ∀ b ∈ s, b ≠ 0) :
    cstr (s ++ 0 :: rest) = some s := by
  induction s with
  | nil => simp [cstr]
  | cons b bs ih =>
    have hb : b ≠ 0 := hs b (List.mem_cons_self _ _)
    have ih1 := ih (fun x hx => hs x (List.mem_cons_of_mem _ hx))
    simp [cstr, hb, ih1]

theorem strlen_append_zero (s rest : List Nat) (hs : ∀ b ∈ s, b ≠ 0) :
    strlen (s ++ 0 :: rest) = some s.length := by
  simp [strlen, cstr_append_zero s rest hs]

theorem atoi_append_zero (s rest : List Nat) (hs : ∀ b ∈ s, b ≠ 0)
    (h1 : - 2 ^ 31 ≤ atoi_value s) (h2 : atoi_value s < 2 ^ 31) :
    atoi (s ++ 0 :: rest) = some (atoi_value s) := by
  simp only [atoi, cstr_append_zero s rest hs]
  rw [if_pos ⟨h1, h2⟩]

theorem drop_eq_cons {buf : List Nat} {i b : Nat} {t : List Nat} (h : buf.drop i = b :: t) :
    buf.get? i = some b ∧ buf.drop (i + 1) = t := by
  induction buf generalizing i with
  | nil => simp at h
  | cons x xs ih =>
    cases i with
    | zero => simp at h; simp [h.1, h.2]
    | succ j => simp at h; simpa using ih h

theorem drop_eq_append {buf : List Nat} {i : Nat} {s t : List Nat} (h : buf.drop i = s ++ t) :
    buf.drop (i + s.length) = t := by
  induction s generalizing i with
  | nil => simpa using h
  | cons b bs ih =>
    have h1 := (drop_eq_cons (show buf.drop i = b :: (bs ++ t) from h)).2
    have h2 := ih h1
    rw [← h2]; congr 1; simp; omega

/-! ## Lemmas: the scan loop -/

theorem type_check_sz {buf : List Nat} {st st1 : scan_state}
    (h : type_check buf st = some (.next st1)) : st1.sz = st.sz := by
  unfold type_check at h
  split at h
  · simp at h; rw [← h]
  · split at h
    · split at h
      · split at h
        · simp at h
        · split at h
          · simp at h
          · split at h
            · simp at h
            · split at h
              · simp at h
              · simp at h; rw [← h]
      · simp at h
    · simp at h; rw [← h]

theorem length_check_sz {buf : List Nat} {st st1 : scan_state}
    (h : length_check buf st = some (.next st1)) : st1.sz ≤ st.sz := by
  unfold length_check at h
  split at h
  · simp at h; rw [← h]
  · split at h
    · split at h
      · split at h
        · simp at h
        · rename_i hc
          simp at h; rw [← h]; simp; push_neg at hc; omega
      · simp at h
    · simp at h; rw [← h]

theorem zero_check_sz {buf : List Nat} {st st1 : scan_state}
    (h : zero_check buf st = some (.cont st1)) : st1.sz = st.sz := by
  unfold zero_check at h
  split at h
  · simp at h
  · split at h
    · split at h
      · simp at h
      · simp at h; rw [← h]; simp [set_field]; split <;> rfl
    · simp at h; rw [← h]

theorem scan_body_sz {buf : List Nat} {st st1 : scan_state}
    (h : scan_body buf st = some (.cont st1)) : st1.sz ≤ st.sz := by
  unfold scan_body at h
  split at h
  · simp at h
  · simp at h
  · rename_i s1 h1
    split at h
    · simp at h
    · simp at h
    · rename_i s2 h2
      have a := type_check_sz h1
      have b := length_check_sz h2
      have c := zero_check_sz h
      omega

/-- The iteration budget is immaterial once it bounds `sz`. -/
theorem scan_loop_fuel (buf : List Nat) (fuel fuel2 : Nat) (st : scan_state)
    (h1 : st.sz ≤ fuel) (h2 : st.sz ≤ fuel2) :
    scan_loop buf fuel st = scan_loop buf fuel2 st := by
  induction fuel generalizing fuel2 st with
  | zero =>
    have hsz : ¬ st.sz > 0 := by simp at h1; omega
    cases fuel2 <;> simp [scan_loop, hsz]
  | succ n ih =>
    cases fuel2 with
    | zero =>
      have hsz : ¬ st.sz > 0 := by simp at h2; omega
      simp [scan_loop, hsz]
    | succ m =>
      by_cases hsz : st.sz > 0
      · simp only [scan_loop, hsz, if_true]
        cases hb : scan_body buf { st with sz := st.sz - 1 } with
        | none => rfl
        | some r =>
          cases r with
          | ret v => rfl
          | brk s1 => rfl
          | cont s1 =>
            have := scan_body_sz hb
            simp at this
            simp only
            apply ih
            · push_cast at h1; omega
            · push_cast at h2; omega
      · simp [scan_loop, hsz]

theorem scan_run_step (buf : List Nat) (st : scan_state) (hsz : st.sz > 0) :
    scan_run buf st =
      match scan_body buf { st with sz := st.sz - 1 } with
      | none => none
      | some (.ret v) => some v
      | some (.brk st1) => scan_finish buf st1
      | some (.cont st1) => scan_run buf st1 := by
  unfold scan_run
  obtain ⟨n, hn⟩ : ∃ n, st.sz.toNat = n + 1 := ⟨st.sz.toNat - 1, by omega⟩
  rw [hn]
  simp only [scan_loop, hsz, if_true]
  cases hb : scan_body buf { st with sz := st.sz - 1 } with
  | none => rfl
  | some r =>
    cases r with
    | ret v => rfl
    | brk s1 => rfl
    | cont s1 =>
      have := scan_body_sz hb
      simp at this
      simp only
      apply scan_loop_fuel
      · omega
      · omega

theorem scan_run_exit (buf : List Nat) (st : scan_state) (hsz : ¬ st.sz > 0) :
    scan_run buf st = scan_finish buf { st with sz := st.sz - 1 } := by
  unfold scan_run
  cases st.sz.toNat <;> simp [scan_loop, hsz]

theorem scan_body_quiet (buf : List Nat) (st : scan_state)
    (h1 : st.ptype = none ∨ st.data_type ≠ -1) (h2 : st.plen = none ∨ st.data_length ≠ -1) :
    scan_body buf st = zero_check buf st := by
  have ht : type_check buf st = some (.next st) := by
    unfold type_check
    rcases h1 with h | h
    · simp [h]
    · cases st.ptype <;> simp [h]
  have hl : length_check buf st = some (.next st) := by
    unfold length_check
    rcases h2 with h | h
    · simp [h]
    · cases st.plen <;> simp [h]
  simp [scan_body, ht, hl]

/-- Bytes that are not zero are stepped over while no field check is pending. -/
theorem scan_run_skip (buf seg rest : List Nat) (hseg : ∀ b ∈ seg, b ≠ 0)
    (p : Nat) (sz : Int) (pt pl pd : Option Nat) (nl tl ll dl dt : Int) (idx : Nat)
    (h1 : pt = none ∨ dt ≠ -1) (h2 : pl = none ∨ dl ≠ -1)
    (hd : buf.drop p = seg ++ rest) (hsz : (seg.length : Int) ≤ sz) :
    scan_run buf ⟨p, sz, pt, pl, pd, nl, tl, ll, dl, dt, idx⟩ =
      scan_run buf ⟨p + seg.length, sz - seg.length, pt, pl, pd, nl, tl, ll, dl, dt, idx⟩ := by
  induction seg generalizing p sz with
  | nil => simp
  | cons b bs ih =>
    have hb : b ≠ 0 := hseg b (List.mem_cons_self _ _)
    have hbs : ∀ x ∈ bs, x ≠ 0 := fun x hx => hseg x (List.mem_cons_of_mem _ hx)
    obtain ⟨hg, hd1⟩ := drop_eq_cons (show buf.drop p = b :: (bs ++ rest) from hd)
    simp only [List.length_cons] at hsz ⊢
    push_cast at hsz
    rw [scan_run_step _ _ (by simp; omega)]
    rw [scan_body_quiet _ _ h1 h2]
    simp only [zero_check, hg, hb, if_false]
    rw [ih hbs (p + 1) (sz - 1) hd1 (by omega)]
    congr 2
    · omega
    · push_cast; omega

theorem scan_run_term0 (buf rest : List Nat)
    (p : Nat) (sz : Int) (pt pl pd : Option Nat) (nl tl ll dl dt : Int)
    (h1 : pt = none ∨ dt ≠ -1) (h2 : pl = none ∨ dl ≠ -1)
    (hd : buf.drop p = 0 :: rest) (hsz : 0 < sz) :
    scan_run buf ⟨p, sz, pt, pl, pd, nl, tl, ll, dl, dt, 0⟩ =
      scan_run buf ⟨p + 1, sz - 1, some (p + 1), pl, pd, nl, tl, ll, dl, dt, 1⟩ := by
  obtain ⟨hg, _⟩ := drop_eq_cons hd
  rw [scan_run_step _ _ (by simpa using hsz)]
  rw [scan_body_quiet _ _ h1 h2]
  simp only [zero_check, hg, set_field]
  simp

theorem scan_run_term1 (buf rest : List Nat)
    (p : Nat) (sz : Int) (pt pl pd : Option Nat) (nl tl ll dl dt : Int)
    (h1 : pt = none ∨ dt ≠ -1) (h2 : pl = none ∨ dl ≠ -1)
    (hd : buf.drop p = 0 :: rest) (hsz : 0 < sz) :
    scan_run buf ⟨p, sz, pt, pl, pd, nl, tl, ll, dl, dt, 1⟩ =
      scan_run buf ⟨p + 1, sz - 1, pt, some (p + 1), pd, nl, tl, ll, dl, dt, 2⟩ := by
  obtain ⟨hg, _⟩ := drop_eq_cons hd
  rw [scan_run_step _ _ (by simpa using hsz)]
  rw [scan_body_quiet _ _ h1 h2]
  simp only [zero_check, hg, set_field]
  simp

theorem scan_run_term2 (buf rest : List Nat)
    (p : Nat) (sz : Int) (pt pl pd : Option Nat) (nl tl ll dl dt : Int)
    (h1 : pt = none ∨ dt ≠ -1) (h2 : pl = none ∨ dl ≠ -1)
    (hd : buf.drop p = 0 :: rest) (hsz : 0 < sz) :
    scan_run buf ⟨p, sz, pt, pl, pd, nl, tl, ll, dl, dt, 2⟩ =
      scan_finish buf ⟨p, sz - 1, pt, pl, some (p + 1), nl, tl, ll, dl, dt, 3⟩ := by
  obtain ⟨hg, _⟩ := drop_eq_cons hd
  rw [scan_run_step _ _ (by simpa using hsz)]
  rw [scan_body_quiet _ _ h1 h2]
  simp only [zero_check, hg, set_field]
  simp

theorem known_type_cases {t : Int} (h : known_type t = true) :
    t = 1 ∨ t = 6 ∨ t = 7 ∨ t = 16 ∨ t = 21 ∨ t = 22 ∨ t = 24 ∨ t = 27 := by
  simpa [known_type, SDS_INT, SDS_CHAR, SDS_STRING, SDS_FLOAT, SDS_STRUCT, SDS_VOID,
    SDS_STRUCT_LIST, SDS_BASE64, or_assoc] using h

/-- The pass that checks the type field leaves the loop as if the type had
been known before. -/
theorem scan_run_type (buf name ttxt rest : List Nat) (httxt : ∀ b ∈ ttxt, b ≠ 0)
    (p : Nat) (sz : Int) (pd : Option Nat) (nl tl ll dl : Int) (idx : Nat)
    (hs0 : strlen buf = some name.length) (hp : p = name.length + 1)
    (hdrop : buf.drop p = ttxt ++ 0 :: rest)
    (hk : known_type (atoi_value ttxt) = true) (hsz : 0 < sz) :
    scan_run buf ⟨p, sz, some p, none, pd, nl, tl, ll, dl, -1, idx⟩ =
      scan_run buf ⟨p, sz, some p, none, pd,
        (name.length : Int) + 1, (ttxt.length : Int) + 1, ll, dl, atoi_value ttxt, idx⟩ := by
  subst hp
  have hkc := known_type_cases hk
  have hs1 : strlen (buf.drop (name.length + 1)) = some ttxt.length := by
    rw [hdrop]; exact strlen_append_zero _ _ httxt
  have ha1 : atoi (buf.drop (name.length + 1)) = some (atoi_value ttxt) := by
    rw [hdrop]; apply atoi_append_zero _ _ httxt
    · rcases hkc with h | h | h | h | h | h | h | h <;> rw [h] <;> norm_num
    · rcases hkc with h | h | h | h | h | h | h | h <;> rw [h] <;> norm_num
  have hlt : ¬ (atoi_value ttxt ≥ SDS_TYPEMAX) := by
    rcases hkc with h | h | h | h | h | h | h | h <;> rw [h] <;> simp [SDS_TYPEMAX]
  have hne : atoi_value ttxt ≠ -1 := by
    rcases hkc with h | h | h | h | h | h | h | h <;> rw [h] <;> norm_num
  rw [scan_run_step _ _ (by simpa using hsz)]
  rw [scan_run_step buf ⟨name.length + 1, sz, some (name.length + 1), none, pd,
        (name.length : Int) + 1, (ttxt.length : Int) + 1, ll, dl, atoi_value ttxt, idx⟩
        (by simpa using hsz)]
  rw [scan_body_quiet buf ⟨name.length + 1, sz - 1, some (name.length + 1), none, pd,
        (name.length : Int) + 1, (ttxt.length : Int) + 1, ll, dl, atoi_value ttxt, idx⟩
        (Or.inr hne) (Or.inl rfl)]
  have hbody : scan_body buf ⟨name.length + 1, sz - 1, some (name.length + 1), none, pd, nl, tl,
      ll, dl, -1, idx⟩ = zero_check buf ⟨name.length + 1, sz - 1, some (name.length + 1), none,
        pd, (name.length : Int) + 1, (ttxt.length : Int) + 1, ll, dl, atoi_value ttxt, idx⟩ := by
    have hnz : ¬ ((name.length : Int) + 1 = 0) := by omega
    simp only [scan_body, type_check, hs1, ha1, hs0, hlt, hk, length_check]
    simp [hnz]
  rw [hbody]

/-- The pass that checks the length field leaves the loop as if the length had
been known before, with `sz` capped to the declared length plus one. -/
theorem scan_run_length (buf ltxt rest : List Nat) (hltxt : ∀ b ∈ ltxt, b ≠ 0)
    (p : Nat) (sz : Int) (pt pd : Option Nat) (nl tl ll dt : Int) (idx : Nat)
    (hdrop : buf.drop p = ltxt ++ 0 :: rest)
    (hdt : dt ≠ -1) (hL1 : 1 ≤ atoi_value ltxt) (hL2 : atoi_value ltxt < 2 ^ 31)
    (hsz : atoi_value ltxt + 1 < sz) :
    scan_run buf ⟨p, sz, pt, some p, pd, nl, tl, ll, -1, dt, idx⟩ =
      scan_run buf ⟨p, atoi_value ltxt + 2, pt, some p, pd, nl, tl,
        (ltxt.length : Int) + 1, atoi_value ltxt, dt, idx⟩ := by
  have hs1 : strlen (buf.drop p) = some ltxt.length := by
    rw [hdrop]; exact strlen_append_zero _ _ hltxt
  have ha1 : atoi (buf.drop p) = some (atoi_value ltxt) := by
    rw [hdrop]; apply atoi_append_zero _ _ hltxt
    · have : (0:Int) < 2 ^ 31 := by norm_num
      omega
    · exact hL2
  have hne : atoi_value ltxt ≠ -1 := by omega
  have hc : ¬ (atoi_value ltxt = 0 ∨ atoi_value ltxt ≥ sz - 1) := by omega
  rw [scan_run_step _ _ (by simp; omega)]
  rw [scan_run_step buf ⟨p, atoi_value ltxt + 2, pt, some p, pd, nl, tl,
        (ltxt.length : Int) + 1, atoi_value ltxt, dt, idx⟩ (by simp; omega)]
  rw [scan_body_quiet buf ⟨p, atoi_value ltxt + 2 - 1, pt, some p, pd, nl, tl,
        (ltxt.length : Int) + 1, atoi_value ltxt, dt, idx⟩ (Or.inr hdt) (Or.inr hne)]
  have hty : type_check buf ⟨p, sz - 1, pt, some p, pd, nl, tl, ll, -1, dt, idx⟩
      = some (.next ⟨p, sz - 1, pt, some p, pd, nl, tl, ll, -1, dt, idx⟩) := by
    unfold type_check
    cases pt <;> simp [hdt]
  have hbody : scan_body buf ⟨p, sz - 1, pt, some p, pd, nl, tl, ll, -1, dt, idx⟩
      = zero_check buf ⟨p, atoi_value ltxt + 2 - 1, pt, some p, pd, nl, tl,
        (ltxt.length : Int) + 1, atoi_value ltxt, dt, idx⟩ := by
    have he : atoi_value ltxt + 2 - 1 = atoi_value ltxt + 1 := by ring
    simp only [scan_body, hty, length_check, hs1, ha1, hc, he]
    simp
  rw [hbody]

theorem fields_length (name ttxt ltxt : List Nat) :
    (fields name ttxt ltxt).length = name.length + 1 + (ttxt.length + 1) + (ltxt.length + 1) := by
  simp [fields]; omega

/-- On a buffer that starts with three terminated text fields, a known type
and a declared length that passes the length check, the loop ends by `break`
with the three field pointers set. -/
theorem scan_fields_state (name ttxt ltxt rest : List Nat) (sz : Int)
    (hname : ∀ b ∈ name, b ≠ 0) (httxt : ∀ b ∈ ttxt, b ≠ 0) (hltxt : ∀ b ∈ ltxt, b ≠ 0)
    (hk : known_type (atoi_value ttxt) = true)
    (hL1 : 1 ≤ atoi_value ltxt) (hL2 : atoi_value ltxt < 2 ^ 31)
    (hsz : atoi_value ltxt + name.length + ttxt.length + 3 < sz)
    (hll : (ltxt.length : Int) ≤ atoi_value ltxt + 1) :
    scan_sds_datum (fields name ttxt ltxt ++ rest) sz =
      scan_finish (fields name ttxt ltxt ++ rest)
        ⟨name.length + 1 + ttxt.length + 1 + ltxt.length,
         atoi_value ltxt + 2 - ltxt.length - 1,
         some (name.length + 1), some (name.length + 1 + ttxt.length + 1),
         some (name.length + 1 + ttxt.length + 1 + ltxt.length + 1),
         (name.length : Int) + 1, (ttxt.length : Int) + 1, (ltxt.length : Int) + 1,
         atoi_value ltxt, atoi_value ttxt, 3⟩ := by
  have hkc := known_type_cases hk
  have hne : atoi_value ttxt ≠ -1 := by
    rcases hkc with h | h | h | h | h | h | h | h <;> rw [h] <;> norm_num
  generalize hbuf : fields name ttxt ltxt ++ rest = buf
  have hb0 : buf.drop 0 = name ++ (0 :: (ttxt ++ 0 :: (ltxt ++ 0 :: rest))) := by
    rw [← hbuf]; simp [fields]
  have hb1 := drop_eq_append hb0
  have hb2 := (drop_eq_cons hb1).2
  have hb3 := drop_eq_append hb2
  have hb4 := (drop_eq_cons hb3).2
  have hb5 := drop_eq_append hb4
  have hs0 : strlen buf = some name.length := by
    have := strlen_append_zero name (ttxt ++ 0 :: (ltxt ++ 0 :: rest)) hname
    rw [← hb0] at this; simpa using this
  simp only [Nat.zero_add] at hb1 hb2 hb3 hb4 hb5
  show scan_run buf (scan_init sz) = _
  unfold scan_init
  rw [scan_run_skip buf name _ hname 0 sz none none none _ _ _ _ _ 0 (Or.inl rfl) (Or.inl rfl)
    hb0 (by omega)]
  simp only [Nat.zero_add]
  rw [scan_run_term0 buf _ _ _ none none none _ _ _ _ _ (Or.inl rfl) (Or.inl rfl) hb1 (by omega)]
  rw [scan_run_type buf name ttxt _ httxt _ _ none _ _ _ _ 1 hs0 rfl hb2 hk (by omega)]
  rw [scan_run_skip buf ttxt _ httxt _ _ _ none none _ _ _ _ _ 1 (Or.inr hne) (Or.inl rfl)
    hb2 (by omega)]
  rw [scan_run_term1 buf _ _ _ _ none none _ _ _ _ _ (Or.inr hne) (Or.inl rfl) hb3 (by omega)]
  rw [scan_run_length buf ltxt rest hltxt _ _ _ none _ _ _ _ 2 hb4 hne hL1 hL2 (by omega)]
  have hLne : atoi_value ltxt ≠ -1 := by omega
  rw [scan_run_skip buf ltxt _ hltxt _ _ _ _ none _ _ _ _ _ 2 (Or.inr hne) (Or.inr hLne)
    hb4 (by omega)]
  rw [scan_run_term2 buf _ _ _ _ _ none _ _ _ _ _ (Or.inr hne) (Or.inr hLne) hb5 (by omega)]

/-- Result of `scan_sds_datum` on three terminated text fields with a known
type and a declared length that passes the length check: for INT, STRING and
FLOAT the terminated length of the value is compared with the declared length,
for the other types the total is returned whatever the value bytes are. -/
theorem scan_fields (name ttxt ltxt rest : List Nat) (sz : Int)
    (hname : ∀ b ∈ name, b ≠ 0) (httxt : ∀ b ∈ ttxt, b ≠ 0) (hltxt : ∀ b ∈ ltxt, b ≠ 0)
    (hk : known_type (atoi_value ttxt) = true)
    (hL1 : 1 ≤ atoi_value ltxt) (hL2 : atoi_value ltxt < 2 ^ 31)
    (hsz : atoi_value ltxt + name.length + ttxt.length + 3 < sz)
    (hll : (ltxt.length : Int) ≤ atoi_value ltxt + 1) :
    scan_sds_datum (fields name ttxt ltxt ++ rest) sz =
      if atoi_value ttxt = 1 ∨ atoi_value ttxt = 7 ∨ atoi_value ttxt = 16 then
        match strlen rest with
        | none => none
        | some n =>
          if (n : Int) + 1 ≠ atoi_value ltxt then some 0
          else some ((fields name ttxt ltxt).length + atoi_value ltxt)
      else some ((fields name ttxt ltxt).length + atoi_value ltxt) := by
  rw [scan_fields_state name ttxt ltxt rest sz hname httxt hltxt hk hL1 hL2 hsz hll]
  have hd : (fields name ttxt ltxt ++ rest).drop
      (name.length + 1 + ttxt.length + 1 + ltxt.length + 1) = rest := by
    have : name.length + 1 + ttxt.length + 1 + ltxt.length + 1 = (fields name ttxt ltxt).length := by
      rw [fields_length]; omega
    rw [this, List.drop_left]
  have hlen : ((fields name ttxt ltxt).length : Int) =
      (name.length : Int) + 1 + ((ttxt.length : Int) + 1) + ((ltxt.length : Int) + 1) := by
    rw [fields_length]; push_cast; ring
  simp only [scan_finish, hd, SDS_INT, SDS_STRING, SDS_FLOAT, hlen]

/-! ## Lemmas: decimal text and well-formed datums -/

theorem atoi_digits_map (ds : List Nat) (acc : Nat) (h : ∀ d ∈ ds, d < 10) :
    atoi_digits (ds.map (fun d => d + 48)) acc = ds.foldl (fun a d => a * 10 + d) acc := by
  induction ds generalizing acc with
  | nil => simp [atoi_digits]
  | cons d ds ih =>
    have hd : d < 10 := h d (List.mem_cons_self _ _)
    have hdig : isdigit (d + 48) = true := by simp [isdigit]; omega
    simp only [List.map_cons, atoi_digits, hdig, if_true, List.foldl_cons]
    rw [ih _ (fun x hx => h x (List.mem_cons_of_mem _ hx))]
    simp

theorem foldr_digits (ds : List Nat) :
    ds.foldr (fun d a => a * 10 + d) 0 = Nat.ofDigits 10 ds := by
  induction ds with
  | nil => simp
  | cons d ds ih => simp [Nat.ofDigits_cons, ih]; ring

theorem atoi_digits_dec_text (n : Nat) : atoi_digits (dec_text n) 0 = n := by
  unfold dec_text
  rw [atoi_digits_map _ _ (fun d hd =>
    Nat.digits_lt_base (by norm_num) (List.mem_reverse.mp hd))]
  rw [List.foldl_reverse, foldr_digits, Nat.ofDigits_digits]

theorem dec_text_ne_zero (n : Nat) : ∀ b ∈ dec_text n, b ≠ 0 := by
  intro b hb
  simp [dec_text] at hb
  obtain ⟨a, _, rfl⟩ := hb
  omega

theorem dec_text_length (n : Nat) (hn : 1 ≤ n) :
    1 ≤ (dec_text n).length ∧ (dec_text n).length ≤ n := by
  have h := Nat.digits_len 10 n (by norm_num) (by omega)
  have h2 := Nat.log_lt_self 10 (show n ≠ 0 by omega)
  simp [dec_text, h]
  omega

theorem atoi_value_dec_text (n : Nat) (hn : 1 ≤ n) : atoi_value (dec_text n) = n := by
  have hd := atoi_digits_dec_text n
  have hlen := (dec_text_length n hn).1
  have hmem : ∀ b ∈ dec_text n, 48 ≤ b ∧ b < 58 := by
    intro b hb
    simp [dec_text] at hb
    obtain ⟨a, ha, rfl⟩ := hb
    have := Nat.digits_lt_base (by norm_num : 1 < 10) ha
    omega
  cases hs : dec_text n with
  | nil => rw [hs] at hlen; simp at hlen
  | cons c cs =>
    rw [hs] at hd hmem
    have hc := hmem c (List.mem_cons_self _ _)
    have h1 : isspace c = false := by simp [isspace]; omega
    have h2 : ¬ c = 45 := by omega
    have h3 : ¬ c = 43 := by omega
    simp only [atoi_value, h1, atoi_signed, h2, h3, if_false, hd]
    simp

theorem encode_eq (d : datum) (tail : List Nat) :
    d.encode ++ tail = fields d.name (dec_text d.type) (dec_text d.length) ++ (d.value ++ tail) := by
  simp [datum.encode, fields]

theorem encode_length (d : datum) :
    d.encode.length = d.name.length + 1 + ((dec_text d.type).length + 1) +
      ((dec_text d.length).length + 1) + d.value.length := by
  simp [datum.encode]; omega

theorem known_type_of_mem {t : Nat} (h : t ∈ [1, 6, 7, 16, 21, 22, 24, 27]) :
    known_type (t : Int) = true := by
  simp at h
  rcases h with h | h | h | h | h | h | h | h <;> subst h <;> decide

/-- Scanner round trip, in terms of the length of the encoding. -/
theorem scan_encode (d : datum) (tail : List Nat) (sz : Int) (hwf : d.well_formed)
    (hsz : (d.encode.length : Int) ≤ sz) (h31 : sz < 2 ^ 31) :
    scan_sds_datum (d.encode ++ tail) sz = some (d.encode.length : Int) := by
  obtain ⟨hname, htype, hL, hval, hterm⟩ := hwf
  have ht1 : 1 ≤ d.type := by
    simp at htype
    rcases htype with h | h | h | h | h | h | h | h <;> omega
  have hat := atoi_value_dec_text d.type ht1
  have hal := atoi_value_dec_text d.length hL
  have hlenl := dec_text_length d.length hL
  have hlen := encode_length d
  have hflen := fields_length d.name (dec_text d.type) (dec_text d.length)
  rw [encode_eq]
  rw [scan_fields d.name (dec_text d.type) (dec_text d.length) (d.value ++ tail) sz hname
    (dec_text_ne_zero _) (dec_text_ne_zero _) (by rw [hat]; exact known_type_of_mem htype)
    (by rw [hal]; exact_mod_cast hL) (by rw [hal]; omega) (by rw [hal]; omega)
    (by rw [hal]; omega)]
  rw [hat, hal]
  have htot : ((fields d.name (dec_text d.type) (dec_text d.length)).length : Int) + (d.length : Int)
      = (d.encode.length : Int) := by
    rw [hlen, hflen, hval]; push_cast; ring
  rw [htot]
  by_cases hc : ((d.type : Int) = 1 ∨ (d.type : Int) = 7 ∨ (d.type : Int) = 16)
  · rw [if_pos hc]
    have hmem : d.type ∈ [1, 7, 16] := by
      simp
      rcases hc with h | h | h
      · left; exact_mod_cast h
      · right; left; exact_mod_cast h
      · right; right; exact_mod_cast h
    obtain ⟨hnz, hlast⟩ := hterm hmem
    have hv : d.value = d.value.dropLast ++ [0] :=
      (List.dropLast_append_getLast? 0 (by rw [hlast]; exact rfl)).symm
    have hs : strlen (d.value ++ tail) = some d.value.dropLast.length := by
      have := strlen_append_zero d.value.dropLast tail hnz
      rw [hv]; simpa using this
    rw [hs]
    have hdl : (d.value.dropLast.length : Int) + 1 = (d.length : Int) := by
      have : d.value.dropLast.length + 1 = d.length := by
        rw [List.length_dropLast]; omega
      exact_mod_cast this
    simp only [hdl, ne_eq, not_true_eq_false, if_false]
  · rw [if_neg hc]

/-! ## Lemmas: validate_sds_data -/

theorem encode_length_pos (d : datum) : 0 < d.encode.length := by
  rw [encode_length]; omega

/-- A record result of the validator loop does not depend on the budget. -/
theorem validate_loop_fuel (buffer : List Nat) (f f2 : Nat) (data size v : Int)
    (h : validate_loop buffer f data size = .ret v) (hle : f ≤ f2) :
    validate_loop buffer f2 data size = .ret v := by
  induction f generalizing f2 data size with
  | zero =>
    by_cases hs : size > 0
    · simp [validate_loop, hs] at h
    · cases f2 with
      | zero => exact h
      | succ m => simp [validate_loop, hs] at h ⊢; exact h
  | succ n ih =>
    cases f2 with
    | zero => omega
    | succ m =>
      by_cases hs : size > 0
      · simp only [validate_loop, hs, if_true] at h ⊢
        by_cases hd : data < 0
        · simp [hd] at h
        · simp only [hd, if_false] at h ⊢
          cases hsc : scan_sds_datum (List.drop data.toNat buffer) size with
          | none => rw [hsc] at h; simp at h
          | some valid =>
            rw [hsc] at h
            simp only at h ⊢
            by_cases hv : valid = 0
            · simp only [hv, if_true] at h ⊢; exact h
            · simp only [hv, if_false] at h ⊢
              exact ih _ _ _ h (by omega)
      · simp [validate_loop, hs] at h ⊢; exact h

/-- The validator walks over a prefix of well-formed datums, one per iteration. -/
theorem validate_loop_prefix (ds : List datum) (hwf : ∀ d ∈ ds, d.well_formed)
    (pre tail : List Nat) (fuel : Nat) (g : Int) (hg : 0 ≤ g)
    (h31 : ((payload_of ds).length : Int) + g < 2 ^ 31) :
    validate_loop (pre ++ (payload_of ds ++ tail)) (ds.length + fuel) pre.length
        ((payload_of ds).length + g) =
      validate_loop (pre ++ (payload_of ds ++ tail)) fuel
        ((pre.length : Int) + (payload_of ds).length) g := by
  induction ds generalizing pre with
  | nil => simp [payload_of]
  | cons d ds ih =>
    have hd := hwf d (List.mem_cons_self _ _)
    have hds : ∀ x ∈ ds, x.well_formed := fun x hx => hwf x (List.mem_cons_of_mem _ hx)
    have hpos := encode_length_pos d
    have hlen : (payload_of (d :: ds)).length = d.encode.length + (payload_of ds).length := by
      simp [payload_of]
    rw [hlen] at h31 ⊢
    push_cast at h31 ⊢
    have hfuel : (d :: ds).length + fuel = (ds.length + fuel) + 1 := by simp; omega
    rw [hfuel]
    have hsz : ((d.encode.length : Int) + (payload_of ds).length + g) > 0 := by omega
    have hdata : ¬ ((pre.length : Int) < 0) := by omega
    have hdrop : List.drop ((pre.length : Int)).toNat (pre ++ (payload_of (d :: ds) ++ tail)) =
        d.encode ++ (payload_of ds ++ tail) := by
      simp [payload_of]
    have hscan := scan_encode d (payload_of ds ++ tail)
      ((d.encode.length : Int) + (payload_of ds).length + g) hd (by omega) (by omega)
    have hne : ¬ ((d.encode.length : Int) = 0) := by omega
    simp only [validate_loop, hsz, if_true, hdata, if_false, hdrop, hscan, hne]
    have hbuf : pre ++ (payload_of (d :: ds) ++ tail) =
        (pre ++ d.encode) ++ (payload_of ds ++ tail) := by
      simp [payload_of]
    rw [hbuf]
    have := ih hds (pre ++ d.encode) (by omega)
    simp only [List.length_append] at this
    push_cast at this
    have e1 : (d.encode.length : Int) + (payload_of ds).length + g - d.encode.length =
        (payload_of ds).length + g := by ring
    have e2 : (pre.length : Int) + (d.encode.length + (payload_of ds).length) =
        (pre.length : Int) + d.encode.length + (payload_of ds).length := by ring
    rw [e1, e2]
    exact this

/-! ## Lemmas: get_record -/

theorem validate_h_spacer_ne_zero (v : Nat) : validate_h_spacer v ≠ 0 ↔ v ∈ h_spacers := by
  simp only [validate_h_spacer, h_spacers, List.length_cons, List.length_nil,
    validate_h_spacer_loop]
  simp only [List.getD_cons_zero, List.getD_cons_succ]
  constructor
  · intro h
    split_ifs at h <;> simp_all
  · intro h
    simp at h
    rcases h with h | h | h | h <;> subst h <;> simp

theorem hdr_field_lt (w : List Nat) (i : Nat) : hdr_field w i < 2 ^ 32 := by
  unfold hdr_field
  have h0 := Nat.mod_lt (w.getD i 0) (show 256 > 0 by norm_num)
  have h1 := Nat.mod_lt (w.getD (i + 1) 0) (show 256 > 0 by norm_num)
  have h2 := Nat.mod_lt (w.getD (i + 2) 0) (show 256 > 0 by norm_num)
  have h3 := Nat.mod_lt (w.getD (i + 3) 0) (show 256 > 0 by norm_num)
  norm_num
  omega

theorem to_int32_small (n : Nat) (h : n < 2 ^ 31) : to_int32 (n : Int) = n := by
  unfold to_int32
  norm_num at h ⊢
  omega

theorem to_uint32_small (n : Nat) (h : n < 2 ^ 32) : to_uint32 (n : Int) = n := by
  unfold to_uint32
  norm_num at h ⊢
  omega

theorem get_record_eq_spec (f : file_desc) (offset : Nat) (hfd : 2 < f.fd)
    (hsize : f.bytes.length < 2 ^ 31) :
    (get_record f offset f.bytes.length).2 = get_record_spec f.bytes offset := by
  have hfd2 : ¬ f.fd ≤ 2 := by omega
  have hoff : ¬ ((offset : Int) < 0) := by omega
  have hp31 : (2:Nat) ^ 31 = 2147483648 := by norm_num
  have hp32 : (2:Nat) ^ 32 = 4294967296 := by norm_num
  rw [hp31] at hsize
  simp only [get_record, hfd2, if_false, lseek, hoff, ne_eq, not_true_eq_false, read,
    Int.toNat_ofNat, SDS_HDR_SIZE]
  set w := List.take 16 (List.drop offset f.bytes) with hw
  have hwlen : w.length = min 16 (f.bytes.length - offset) := by
    simp [hw]
  have hmsg := hdr_field_lt w 8
  have hh := hdr_field_lt w 0
  rw [hp32] at hmsg hh
  have hdl : (List.take (hdr_field w 8) (List.drop (offset + 16) f.bytes)).length =
      min (hdr_field w 8) (f.bytes.length - (offset + 16)) := by simp
  have hspec : get_record_spec f.bytes offset =
      if header_accepted w ∧ offset + 16 + hdr_field w 8 ≤ f.bytes.length then
        some {
          offset := offset,
          header := hdr_field w 0,
          h_spacer := hdr_field w 4,
          size := hdr_field w 8,
          data_buffer := (f.bytes.drop (offset + 16)).take (hdr_field w 8) }
      else none := rfl
  rw [hspec]
  by_cases hlen : w.length = 16
  · simp only [hlen, not_true_eq_false, if_false]
    have hspc := validate_h_spacer_ne_zero (hdr_field w 4)
    by_cases hacc : header_accepted w
    · obtain ⟨ha, hb, hc⟩ := hacc
      have hb2 : validate_h_spacer (hdr_field w 4) ≠ 0 := hspc.mpr hb
      have hcand : (decide (hdr_field w 0 ≤ HEADER_MAX) &&
          decide (¬ validate_h_spacer (hdr_field w 4) = 0) && decide (hdr_field w 12 = 0)) = true := by
        simp [HEADER_MAX, ha, hb2, hc]
      simp only [hcand, Bool.not_true, Bool.false_and, Bool.false_eq_true, if_false]
      by_cases hfit : offset + 16 + hdr_field w 8 ≤ f.bytes.length
      · have hyes : header_accepted w ∧ offset + 16 + hdr_field w 8 ≤ f.bytes.length :=
          ⟨⟨ha, hb, hc⟩, hfit⟩
        rw [if_pos hyes]
        have e1 : ¬ ¬ (List.take (hdr_field w 8) (List.drop (offset + 16) f.bytes)).length =
            hdr_field w 8 := by rw [hdl]; omega
        rw [if_neg e1]
        have e2 : to_uint32 (offset : Int) = offset := to_uint32_small _ (by rw [hp32]; omega)
        have e3 : to_int32 (hdr_field w 0 : Int) = hdr_field w 0 :=
          to_int32_small _ (by rw [hp31]; omega)
        have e4 : to_int32 (hdr_field w 4 : Int) = hdr_field w 4 := by
          apply to_int32_small
          simp at hb
          rcases hb with h | h | h | h <;> rw [h] <;> norm_num
        have e5 : to_int32 (hdr_field w 8 : Int) = hdr_field w 8 :=
          to_int32_small _ (by rw [hp31]; omega)
        simp only [e2, e3, e4, e5]
      · have hnot : ¬ (header_accepted w ∧ offset + 16 + hdr_field w 8 ≤ f.bytes.length) :=
          fun h => hfit h.2
        rw [if_neg hnot]
        have e1 : ¬ (List.take (hdr_field w 8) (List.drop (offset + 16) f.bytes)).length =
            hdr_field w 8 := by rw [hdl]; omega
        rw [if_pos e1]
    · have hnot : ¬ (header_accepted w ∧ offset + 16 + hdr_field w 8 ≤ f.bytes.length) :=
        fun h => hacc h.1
      rw [if_neg hnot]
      have hcand : (decide (hdr_field w 0 ≤ HEADER_MAX) &&
          decide (¬ validate_h_spacer (hdr_field w 4) = 0) && decide (hdr_field w 12 = 0)) = false := by
        by_contra hx
        rw [Bool.not_eq_false] at hx
        simp only [Bool.and_eq_true, decide_eq_true_eq] at hx
        exact hacc ⟨hx.1.1, hspc.mp hx.1.2, hx.2⟩
      simp only [hcand, Bool.not_false, Bool.true_and]
      by_cases h1 : (decide (hdr_field w 0 < HEADER_MAX) ||
          decide (((hdr_field w 8 : Int) + (offset : Int)) % 2 ^ 32 < (f.bytes.length : Int) % 2 ^ 32) ||
          decide (¬ validate_h_spacer (hdr_field w 4) = 0)) = true
      · rw [if_pos h1]
      · rw [if_neg h1]
        simp only [Bool.or_eq_true, decide_eq_true_eq, not_or, not_lt] at h1
        obtain ⟨⟨_, hB⟩, _⟩ := h1
        have e1 : ¬ (List.take (hdr_field w 8) (List.drop (offset + 16) f.bytes)).length =
            hdr_field w 8 := by
          rw [hdl]
          norm_num at hB
          omega
        rw [if_pos e1]
  · have hlen2 : ¬ w.length = 16 := hlen
    rw [if_pos hlen2]
    have hnot : ¬ (header_accepted w ∧ offset + 16 + hdr_field w 8 ≤ f.bytes.length) := by
      intro h
      apply hlen
      rw [hwlen]; omega
    rw [if_neg hnot]

/-! ## Lemmas: the type rule -/

theorem known_type_false {t : Int} (h : t ∉ ([1, 6, 7, 16, 21, 22, 24, 27] : List Int)) :
    known_type t = false := by
  simp at h
  simp [known_type, SDS_INT, SDS_CHAR, SDS_STRING, SDS_FLOAT, SDS_STRUCT, SDS_VOID,
    SDS_STRUCT_LIST, SDS_BASE64, h]

theorem scan_type_unknown (name m : List Nat) (sz t : Int) (hname : ∀ b ∈ name, b ≠ 0)
    (hsz : (name.length : Int) + 2 ≤ sz) (ht : atoi m = some t) (hk : known_type t = false) :
    scan_sds_datum (name ++ 0 :: m) sz = some 0 := by
  generalize hbuf : name ++ 0 :: m = buf
  have hb0 : buf.drop 0 = name ++ (0 :: m) := by rw [← hbuf]; simp
  have hb1 := drop_eq_append hb0
  have hb2 := (drop_eq_cons hb1).2
  simp only [Nat.zero_add] at hb1 hb2
  have hs : ∃ n, strlen m = some n := by
    unfold atoi at ht
    unfold strlen
    cases hc : cstr m with
    | none => rw [hc] at ht; simp at ht
    | some s => exact ⟨s.length, rfl⟩
  obtain ⟨n, hn⟩ := hs
  show scan_run buf (scan_init sz) = _
  unfold scan_init
  rw [scan_run_skip buf name _ hname 0 sz none none none _ _ _ _ _ 0 (Or.inl rfl) (Or.inl rfl)
    hb0 (by omega)]
  simp only [Nat.zero_add]
  rw [scan_run_term0 buf _ _ _ none none none _ _ _ _ _ (Or.inl rfl) (Or.inl rfl) hb1 (by omega)]
  rw [scan_run_step _ _ (by simp; omega)]
  simp only [scan_body, type_check, hb2, hn, ht, hk]
  by_cases h28 : t ≥ SDS_TYPEMAX
  · simp [h28]
  · simp [h28]

/-! ## Lemmas: a length text that outruns the capped window -/

/-- When the length text is longer than the declared length plus one, the
window capped by the length check is used up inside the length text: the loop
ends with `pdata` still `NULL`. -/
theorem scan_fields_short_state (name ttxt ltxt rest : List Nat) (sz : Int)
    (hname : ∀ b ∈ name, b ≠ 0) (httxt : ∀ b ∈ ttxt, b ≠ 0) (hltxt : ∀ b ∈ ltxt, b ≠ 0)
    (hk : known_type (atoi_value ttxt) = true)
    (hL1 : 1 ≤ atoi_value ltxt) (hL2 : atoi_value ltxt < 2 ^ 31)
    (hsz : atoi_value ltxt + name.length + ttxt.length + 3 < sz)
    (hll : atoi_value ltxt + 1 < (ltxt.length : Int)) :
    scan_sds_datum (fields name ttxt ltxt ++ rest) sz =
      scan_finish (fields name ttxt ltxt ++ rest)
        ⟨name.length + 1 + ttxt.length + 1 + (atoi_value ltxt + 2).toNat,
         -1,
         some (name.length + 1), some (name.length + 1 + ttxt.length + 1),
         none,
         (name.length : Int) + 1, (ttxt.length : Int) + 1, (ltxt.length : Int) + 1,
         atoi_value ltxt, atoi_value ttxt, 2⟩ := by
  have hkc := known_type_cases hk
  have hne : atoi_value ttxt ≠ -1 := by
    rcases hkc with h | h | h | h | h | h | h | h <;> rw [h] <;> norm_num
  generalize hbuf : fields name ttxt ltxt ++ rest = buf
  have hb0 : buf.drop 0 = name ++ (0 :: (ttxt ++ 0 :: (ltxt ++ 0 :: rest))) := by
    rw [← hbuf]; simp [fields]
  have hb1 := drop_eq_append hb0
  have hb2 := (drop_eq_cons hb1).2
  have hb3 := drop_eq_append hb2
  have hb4 := (drop_eq_cons hb3).2
  have hs0 : strlen buf = some name.length := by
    have := strlen_append_zero name (ttxt ++ 0 :: (ltxt ++ 0 :: rest)) hname
    rw [← hb0] at this; simpa using this
  simp only [Nat.zero_add] at hb1 hb2 hb3 hb4
  show scan_run buf (scan_init sz) = _
  unfold scan_init
  rw [scan_run_skip buf name _ hname 0 sz none none none _ _ _ _ _ 0 (Or.inl rfl) (Or.inl rfl)
    hb0 (by omega)]
  simp only [Nat.zero_add]
  rw [scan_run_term0 buf _ _ _ none none none _ _ _ _ _ (Or.inl rfl) (Or.inl rfl) hb1 (by omega)]
  rw [scan_run_type buf name ttxt _ httxt _ _ none _ _ _ _ 1 hs0 rfl hb2 hk (by omega)]
  rw [scan_run_skip buf ttxt _ httxt _ _ _ none none _ _ _ _ _ 1 (Or.inr hne) (Or.inl rfl)
    hb2 (by omega)]
  rw [scan_run_term1 buf _ _ _ _ none none _ _ _ _ _ (Or.inr hne) (Or.inl rfl) hb3 (by omega)]
  rw [scan_run_length buf ltxt rest hltxt _ _ _ none _ _ _ _ 2 hb4 hne hL1 hL2 (by omega)]
  have hLne : atoi_value ltxt ≠ -1 := by omega
  set k := (atoi_value ltxt + 2).toNat with hk_def
  have hkl : k ≤ ltxt.length := by omega
  have hsplit : buf.drop (name.length + 1 + ttxt.length + 1) =
      ltxt.take k ++ (ltxt.drop k ++ 0 :: rest) := by
    rw [hb4, ← List.append_assoc, List.take_append_drop]
  have htake : ∀ b ∈ ltxt.take k, b ≠ 0 := fun b hb => hltxt b (List.mem_of_mem_take hb)
  have hlen : (ltxt.take k).length = k := by
    rw [List.length_take]; omega
  rw [scan_run_skip buf (ltxt.take k) _ htake _ _ _ _ none _ _ _ _ _ 2 (Or.inr hne) (Or.inr hLne)
    hsplit (by rw [hlen]; omega)]
  rw [hlen]
  rw [scan_run_exit _ _ (by simp; omega)]
  congr 2
  simp only
  omega

/-- For the types exempt from the value check the scanner returns the total of
the three text fields and the declared length, whatever follows the fields. -/
theorem scan_fields_exempt (name ttxt ltxt rest : List Nat) (sz : Int)
    (hname : ∀ b ∈ name, b ≠ 0) (httxt : ∀ b ∈ ttxt, b ≠ 0) (hltxt : ∀ b ∈ ltxt, b ≠ 0)
    (ht : atoi_value ttxt = 6 ∨ atoi_value ttxt = 21 ∨ atoi_value ttxt = 22 ∨
        atoi_value ttxt = 24 ∨ atoi_value ttxt = 27)
    (hL1 : 1 ≤ atoi_value ltxt) (hL2 : atoi_value ltxt < 2 ^ 31)
    (hsz : atoi_value ltxt + name.length + ttxt.length + 3 < sz) :
    scan_sds_datum (fields name ttxt ltxt ++ rest) sz =
      some ((fields name ttxt ltxt).length + atoi_value ltxt) := by
  have hk : known_type (atoi_value ttxt) = true := by
    rcases ht with h | h | h | h | h <;> rw [h] <;> decide
  have hnt : ¬ (atoi_value ttxt = 1 ∨ atoi_value ttxt = 7 ∨ atoi_value ttxt = 16) := by
    rcases ht with h | h | h | h | h <;> rw [h] <;> decide
  by_cases hll : (ltxt.length : Int) ≤ atoi_value ltxt + 1
  · rw [scan_fields name ttxt ltxt rest sz hname httxt hltxt hk hL1 hL2 hsz hll, if_neg hnt]
  · rw [scan_fields_short_state name ttxt ltxt rest sz hname httxt hltxt hk hL1 hL2 hsz
      (by omega)]
    have hlen : ((fields name ttxt ltxt).length : Int) =
        (name.length : Int) + 1 + ((ttxt.length : Int) + 1) + ((ltxt.length : Int) + 1) := by
      rw [fields_length]; push_cast; ring
    simp only [scan_finish, SDS_INT, SDS_STRING, SDS_FLOAT, hnt, if_false, hlen]

/-- For INT, STRING and FLOAT a length text longer than the declared length
plus one makes the code after the loop call `strlen` on the `NULL` pointer. -/
theorem scan_fields_null (name ttxt ltxt rest : List Nat) (sz : Int)
    (hname : ∀ b ∈ name, b ≠ 0) (httxt : ∀ b ∈ ttxt, b ≠ 0) (hltxt : ∀ b ∈ ltxt, b ≠ 0)
    (ht : atoi_value ttxt = 1 ∨ atoi_value ttxt = 7 ∨ atoi_value ttxt = 16)
    (hL1 : 1 ≤ atoi_value ltxt) (hL2 : atoi_value ltxt < 2 ^ 31)
    (hsz : atoi_value ltxt + name.length + ttxt.length + 3 < sz)
    (hll : atoi_value ltxt + 1 < (ltxt.length : Int)) :
    scan_sds_datum (fields name ttxt ltxt ++ rest) sz = none := by
  have hk : known_type (atoi_value ttxt) = true := by
    rcases ht with h | h | h <;> rw [h] <;> decide
  rw [scan_fields_short_state name ttxt ltxt rest sz hname httxt hltxt hk hL1 hL2 hsz hll]
  simp only [scan_finish, SDS_INT, SDS_STRING, SDS_FLOAT, ht, if_true]

/-! ## Lemmas: the value-termination rule inside the capped window -/

/-- The value-termination rule on three terminated text fields with a declared
length L that passes the length check: for type INT, STRING or FLOAT, when the
length text lies inside the window that the check caps to L + 1 bytes, the
scanner returns 0 whenever the first zero byte of the value is not at index
L-1; for type CHAR, STRUCT, VOID, STRUCT_LIST or BASE64 the result is the same
for all value bytes. -/
theorem scan_sds_datum_value_rule (name ttxt ltxt : List Nat) (sz : Int)
    (hname : ∀ b ∈ name, b ≠ 0) (httxt : ∀ b ∈ ttxt, b ≠ 0) (hltxt : ∀ b ∈ ltxt, b ≠ 0)
    (hL1 : 1 ≤ atoi_value ltxt) (hL2 : atoi_value ltxt < 2 ^ 31)
    (hsz : atoi_value ltxt + name.length + ttxt.length + 3 < sz) :
    ((atoi_value ttxt = 1 ∨ atoi_value ttxt = 7 ∨ atoi_value ttxt = 16) →
      (ltxt.length : Int) ≤ atoi_value ltxt + 1 →
      ∀ (value : List Nat) (j : Nat), strlen value = some j → (j : Int) ≠ atoi_value ltxt - 1 →
        scan_sds_datum (fields name ttxt ltxt ++ value) sz = some 0) ∧
    ((atoi_value ttxt = 6 ∨ atoi_value ttxt = 21 ∨ atoi_value ttxt = 22 ∨
        atoi_value ttxt = 24 ∨ atoi_value ttxt = 27) →
      ∀ (value value2 : List Nat),
        scan_sds_datum (fields name ttxt ltxt ++ value) sz =
          scan_sds_datum (fields name ttxt ltxt ++ value2) sz) := by
  constructor
  · intro ht hll value j hj hne
    have hk : known_type (atoi_value ttxt) = true := by
      rcases ht with h | h | h <;> rw [h] <;> decide
    rw [scan_fields name ttxt ltxt value sz hname httxt hltxt hk hL1 hL2 hsz hll, if_pos ht, hj]
    have : (j : Int) + 1 ≠ atoi_value ltxt := by omega
    simp [this]
  · intro ht value value2
    rw [scan_fields_exempt name ttxt ltxt value sz hname httxt hltxt ht hL1 hL2 hsz,
      scan_fields_exempt name ttxt ltxt value2 sz hname httxt hltxt ht hL1 hL2 hsz]

theorem scan_sds_datum_value_rule_witness :
    scan_sds_datum (fields [97] [49] [50] ++ [120, 121, 0]) 8 = some 0 ∧
    scan_sds_datum (fields [97] [54] [50] ++ [1, 2]) 8 =
      scan_sds_datum (fields [97] [54] [50] ++ [0, 0]) 8 :=
  ⟨(scan_sds_datum_value_rule [97] [49] [50] 8 (by decide) (by decide) (by decide) (by decide)
      (by decide) (by decide)).1 (Or.inl (by decide)) (by decide) [120, 121, 0] 2 (by rfl)
      (by decide),
   (scan_sds_datum_value_rule [97] [54] [50] 8 (by decide) (by decide) (by decide) (by decide)
      (by decide) (by decide)).2 (Or.inl (by decide)) [1, 2] [0, 0]⟩

/-! ## Lemmas: the name test -/

theorem drop_of_get {buf : List Nat} {p b : Nat} (hg : buf.get? p = some b) :
    buf.drop p = b :: buf.drop (p + 1) := by
  induction buf generalizing p with
  | nil => simp at hg
  | cons x xs ih =>
    cases p with
    | zero => simp at hg; simp [hg]
    | succ q =>
      simp only [List.get?_cons_succ] at hg
      simpa using ih hg

theorem take_succ_of_get {buf : List Nat} {p b : Nat} (hg : buf.get? p = some b) :
    buf.take (p + 1) = buf.take p ++ [b] := by
  induction buf generalizing p with
  | nil => simp at hg
  | cons x xs ih =>
    cases p with
    | zero => simp at hg; simp [hg]
    | succ q =>
      simp only [List.get?_cons_succ] at hg
      simp [ih hg]

theorem strlen_of_take {buf : List Nat} {p : Nat} (h : ∀ b ∈ buf.take p, b ≠ 0)
    (hg : buf.get? p = some 0) : strlen buf = some p := by
  have hsplit : buf = buf.take p ++ 0 :: buf.drop (p + 1) := by
    rw [← drop_of_get hg, List.take_append_drop]
  have hlen : (buf.take p).length = p := by
    have : p < buf.length := by
      by_contra hc
      have := List.get?_eq_none.mpr (Nat.le_of_not_lt hc)
      rw [this] at hg; simp at hg
    rw [List.length_take]; omega
  have := strlen_append_zero (buf.take p) (buf.drop (p + 1)) h
  rw [← hsplit, hlen] at this
  exact this

theorem name_invariant_init (buf : List Nat) (sz : Int) : name_invariant buf (scan_init sz) := by
  simp [name_invariant, scan_init]

theorem type_check_eq_no_name_test (buf : List Nat) (st : scan_state)
    (hinv : name_invariant buf st) :
    type_check buf st = type_check_no_name_test buf st := by
  obtain ⟨ptr, sz, ptype, plen, pdata, nl, tl, ll, dl, dt, idx⟩ := st
  cases ptype with
  | none => simp [type_check, type_check_no_name_test]
  | some pt =>
    simp only [name_invariant] at hinv
    obtain ⟨_, hs, hpt, himp⟩ := hinv
    by_cases hdt : dt = -1
    · obtain ⟨hptr, _⟩ := himp hdt
      subst hptr
      have hcast : ((ptr - 1 : Nat) : Int) + 1 = (ptr : Int) := by omega
      simp only [type_check, type_check_no_name_test, hdt, if_true, hs]
      have hfalse : ¬ (((ptr - 1 : Nat) : Int) + 1 = 0 ∨ ((ptr - 1 : Nat) : Int) + 1 ≠ (ptr : Int)) := by
        omega
      cases strlen (List.drop ptr buf) <;> cases atoi (List.drop ptr buf) <;>
        simp only [hfalse, if_false]
    · simp [type_check, type_check_no_name_test, hdt]

theorem type_check_invariant (buf : List Nat) (st st1 : scan_state)
    (hinv : name_invariant buf st) (h : type_check buf st = some (.next st1)) :
    name_invariant buf st1 ∧ (st1.ptype = none ∨ st1.data_type ≠ -1) ∧ st1.ptr = st.ptr := by
  obtain ⟨ptr, sz, ptype, plen, pdata, nl, tl, ll, dl, dt, idx⟩ := st
  cases ptype with
  | none =>
    simp [type_check] at h
    subst h
    exact ⟨hinv, Or.inl rfl, rfl⟩
  | some pt =>
    by_cases hdt : dt = -1
    · simp only [type_check, hdt, if_true] at h
      cases hs1 : strlen (List.drop pt buf) with
      | none => rw [hs1] at h; simp at h
      | some n =>
        cases ha : atoi (List.drop pt buf) with
        | none => rw [hs1, ha] at h; simp at h
        | some t =>
          rw [hs1, ha] at h
          simp only at h
          by_cases h28 : t ≥ SDS_TYPEMAX
          · simp [h28] at h
          · simp only [h28, if_false] at h
            by_cases hk : known_type t = true
            · simp only [hk, Bool.not_true, Bool.false_eq_true, if_false] at h
              cases hs0 : strlen buf with
              | none => rw [hs0] at h; simp at h
              | some nl0 =>
                rw [hs0] at h
                simp only at h
                split at h
                · simp at h
                · simp only [Option.some.injEq, scan_step.next.injEq] at h
                  subst h
                  have hne : t ≠ -1 := by
                    rcases known_type_cases hk with h | h | h | h | h | h | h | h <;>
                      rw [h] <;> norm_num
                  simp only [name_invariant] at hinv ⊢
                  refine ⟨⟨hinv.1, hinv.2.1, hinv.2.2.1, fun hc => absurd hc hne⟩, Or.inr hne, trivial⟩
            · simp [hk] at h
    · simp [type_check, hdt] at h
      subst h
      exact ⟨hinv, Or.inr hdt, rfl⟩

theorem length_check_invariant (buf : List Nat) (st st1 : scan_state)
    (hinv : name_invariant buf st) (hq : st.ptype = none ∨ st.data_type ≠ -1)
    (h : length_check buf st = some (.next st1)) :
    name_invariant buf st1 ∧ (st1.ptype = none ∨ st1.data_type ≠ -1) := by
  obtain ⟨ptr, sz, ptype, plen, pdata, nl, tl, ll, dl, dt, idx⟩ := st
  cases plen with
  | none =>
    simp [length_check] at h
    subst h
    exact ⟨hinv, hq⟩
  | some pl =>
    by_cases hdl : dl = -1
    · simp only [length_check, hdl, if_true] at h
      cases hs1 : strlen (List.drop pl buf) with
      | none => rw [hs1] at h; simp at h
      | some n =>
        cases ha : atoi (List.drop pl buf) with
        | none => rw [hs1, ha] at h; simp at h
        | some d =>
          rw [hs1, ha] at h
          simp only at h
          split at h
          · simp at h
          · simp only [Option.some.injEq, scan_step.next.injEq] at h
            subst h
            refine ⟨?_, hq⟩
            cases ptype with
            | none => simp [name_invariant] at hinv
            | some pt => simpa [name_invariant] using hinv
    · simp [length_check, hdl] at h
      subst h
      exact ⟨hinv, hq⟩

theorem zero_check_invariant (buf : List Nat) (st st1 : scan_state)
    (hinv : name_invariant buf st) (hq : st.ptype = none ∨ st.data_type ≠ -1)
    (h : zero_check buf st = some (.cont st1)) : name_invariant buf st1 := by
  obtain ⟨ptr, sz, ptype, plen, pdata, nl, tl, ll, dl, dt, idx⟩ := st
  simp only [zero_check] at h
  cases hg : buf.get? ptr with
  | none => rw [hg] at h; simp at h
  | some b =>
    rw [hg] at h
    simp only at h
    cases ptype with
    | none =>
      simp only [name_invariant] at hinv
      obtain ⟨hpl, hidx, hpre⟩ := hinv
      subst hpl hidx
      by_cases hb : b = 0
      · subst hb
        simp [set_field] at h
        subst h
        simp only [name_invariant]
        refine ⟨by simp, ?_, by omega, by simp⟩
        simpa using strlen_of_take hpre hg
      · simp [hb] at h
        subst h
        simp only [name_invariant]
        refine ⟨by simp, by simp, ?_⟩
        rw [take_succ_of_get hg]
        intro x hx
        simp at hx
        rcases hx with hx | hx
        · exact hpre x hx
        · rw [hx]; exact hb
    | some pt =>
      have hdt : dt ≠ -1 := by
        rcases hq with hq | hq
        · simp at hq
        · exact hq
      simp only [name_invariant] at hinv
      obtain ⟨hidx, hs, hpt, _⟩ := hinv
      by_cases hb : b = 0
      · subst hb
        rcases idx with _ | _ | k
        · omega
        · simp [set_field] at h
          subst h
          simp only [name_invariant]
          exact ⟨by simp, hs, hpt, fun hc => absurd hc hdt⟩
        · simp only [set_field, if_true] at h
          split at h
          · simp at h
          · simp only [Option.some.injEq, body_result.cont.injEq] at h
            subst h
            simp only [name_invariant]
            exact ⟨by simp, hs, hpt, fun hc => absurd hc hdt⟩
      · simp [hb] at h
        subst h
        simp only [name_invariant]
        exact ⟨hidx, hs, hpt, fun hc => absurd hc hdt⟩

theorem scan_body_eq_no_name_test (buf : List Nat) (st : scan_state)
    (hinv : name_invariant buf st) :
    scan_body buf st = scan_body_no_name_test buf st := by
  simp only [scan_body, scan_body_no_name_test, type_check_eq_no_name_test buf st hinv]

theorem scan_body_invariant (buf : List Nat) (st st1 : scan_state)
    (hinv : name_invariant buf st) (h : scan_body buf st = some (.cont st1)) :
    name_invariant buf st1 := by
  unfold scan_body at h
  split at h
  · simp at h
  · simp at h
  · rename_i s1 h1
    obtain ⟨hi1, hq1, _⟩ := type_check_invariant buf st s1 hinv h1
    split at h
    · simp at h
    · simp at h
    · rename_i s2 h2
      obtain ⟨hi2, hq2⟩ := length_check_invariant buf s1 s2 hi1 hq1 h2
      exact zero_check_invariant buf s2 st1 hi2 hq2 h

theorem scan_loop_eq_no_name_test (buf : List Nat) (fuel : Nat) (st : scan_state)
    (hinv : name_invariant buf st) :
    scan_loop buf fuel st = scan_loop_no_name_test buf fuel st := by
  induction fuel generalizing st with
  | zero => simp [scan_loop, scan_loop_no_name_test]
  | succ n ih =>
    have hinv1 : name_invariant buf { st with sz := st.sz - 1 } := by
      obtain ⟨ptr, sz, ptype, plen, pdata, nl, tl, ll, dl, dt, idx⟩ := st
      cases ptype <;> simpa [name_invariant] using hinv
    simp only [scan_loop, scan_loop_no_name_test]
    by_cases hsz : st.sz > 0
    · simp only [hsz, if_true]
      rw [← scan_body_eq_no_name_test buf _ hinv1]
      cases hb : scan_body buf { st with sz := st.sz - 1 } with
      | none => rfl
      | some r =>
        cases r with
        | ret v => rfl
        | brk s1 => rfl
        | cont s1 => exact ih s1 (scan_body_invariant buf _ s1 hinv1 hb)
    · simp only [hsz, if_false]

/-- Taking the name test out of `scan_sds_datum` changes no result. -/
theorem scan_sds_datum_eq_no_name_test (buf : List Nat) (sz : Int) :
    scan_sds_datum buf sz = scan_sds_datum_no_name_test buf sz :=
  scan_loop_eq_no_name_test buf sz.toNat (scan_init sz) (name_invariant_init buf sz)

/-! ## Lemmas: print_record -/

theorem drop_fields (pre name ttxt ltxt rest : List Nat) :
    (pre ++ (fields name ttxt ltxt ++ rest)).drop pre.length =
        name ++ 0 :: (ttxt ++ 0 :: (ltxt ++ 0 :: rest)) ∧
    (pre ++ (fields name ttxt ltxt ++ rest)).drop (pre.length + name.length + 1) =
        ttxt ++ 0 :: (ltxt ++ 0 :: rest) ∧
    (pre ++ (fields name ttxt ltxt ++ rest)).drop
        (pre.length + name.length + 1 + ttxt.length + 1) = ltxt ++ 0 :: rest ∧
    (pre ++ (fields name ttxt ltxt ++ rest)).drop
        (pre.length + name.length + 1 + ttxt.length + 1 + ltxt.length + 1) = rest := by
  have h0 : (pre ++ (fields name ttxt ltxt ++ rest)).drop pre.length =
      name ++ 0 :: (ttxt ++ 0 :: (ltxt ++ 0 :: rest)) := by
    rw [List.drop_left]; simp [fields]
  have h1 := (drop_eq_cons (drop_eq_append h0)).2
  have h2 := (drop_eq_cons (drop_eq_append h1)).2
  have h3 := (drop_eq_cons (drop_eq_append h2)).2
  exact ⟨h0, h1, h2, h3⟩

/-- One pass of the loop of `print_record` over a datum with terminated text
fields: the lines of the datum, then the loop test. -/
theorem print_record_loop_fields (fuel : Nat) (pre name ttxt ltxt rest : List Nat)
    (sz : Int) (indent : Nat)
    (hname : ∀ b ∈ name, b ≠ 0) (httxt : ∀ b ∈ ttxt, b ≠ 0) (hltxt : ∀ b ∈ ltxt, b ≠ 0)
    (ht1 : - 2 ^ 31 ≤ atoi_value ttxt) (ht2 : atoi_value ttxt < 2 ^ 31)
    (hl1 : - 2 ^ 31 ≤ atoi_value ltxt) (hl2 : atoi_value ltxt < 2 ^ 31) :
    print_record_loop (fuel + 1) (pre ++ (fields name ttxt ltxt ++ rest)) sz indent pre.length =
      match datum_lines fuel indent name (atoi_value ttxt) (atoi_value ltxt) rest with
      | .done es =>
        if (pre.length : Int) + (fields name ttxt ltxt).length + atoi_value ltxt < sz then
          walk_result.prepend es
            (print_record_loop fuel (pre ++ (fields name ttxt ltxt ++ rest)) sz indent
              ((pre.length : Int) + (fields name ttxt ltxt).length + atoi_value ltxt))
        else .done es
      | .fault => .fault
      | .out_of_budget => .out_of_budget := by
  obtain ⟨h0, h1, h2, h3⟩ := drop_fields pre name ttxt ltxt rest
  generalize hbuf : pre ++ (fields name ttxt ltxt ++ rest) = buffer at h0 h1 h2 h3 ⊢
  have hc0 : cstr (buffer.drop pre.length) = some name := by
    rw [h0]; exact cstr_append_zero _ _ hname
  have hc1 : cstr (buffer.drop (pre.length + name.length + 1)) = some ttxt := by
    rw [h1]; exact cstr_append_zero _ _ httxt
  have ha1 : atoi (buffer.drop (pre.length + name.length + 1)) = some (atoi_value ttxt) := by
    rw [h1]; exact atoi_append_zero _ _ httxt ht1 ht2
  have hc2 : cstr (buffer.drop (pre.length + name.length + 1 + ttxt.length + 1)) = some ltxt := by
    rw [h2]; exact cstr_append_zero _ _ hltxt
  have ha2 : atoi (buffer.drop (pre.length + name.length + 1 + ttxt.length + 1)) =
      some (atoi_value ltxt) := by
    rw [h2]; exact atoi_append_zero _ _ hltxt hl1 hl2
  have e0 : ((pre.length : Int)).toNat = pre.length := Int.toNat_ofNat _
  have e1 : ((pre.length : Int) + (name.length : Int) + 1).toNat =
      pre.length + name.length + 1 := by omega
  have e2 : ((pre.length : Int) + (name.length : Int) + 1 + (ttxt.length : Int) + 1).toNat =
      pre.length + name.length + 1 + ttxt.length + 1 := by omega
  have e3 : ((pre.length : Int) + (name.length : Int) + 1 + (ttxt.length : Int) + 1 +
      (ltxt.length : Int) + 1).toNat =
      pre.length + name.length + 1 + ttxt.length + 1 + ltxt.length + 1 := by omega
  have hneg : ¬ ((pre.length : Int) < 0) := by omega
  have hct : (pre.length : Int) + (name.length : Int) + 1 + (ttxt.length : Int) + 1 +
      (ltxt.length : Int) + 1 = (pre.length : Int) + (fields name ttxt ltxt).length := by
    rw [fields_length]; push_cast; ring
  simp only [print_record_loop, hneg, if_false, e0, hc0, e1, hc1, ha1, e2, hc2, ha2, e3, h3]
  rw [hct]
  simp only [datum_lines, inline_value]
  by_cases hv : atoi_value ttxt = SDS_VOID
  · have hns : ¬ (atoi_value ttxt = SDS_STRUCT) := by
      rw [hv]; decide
    simp only [hv, if_true]
    have hns2 : ¬ (SDS_VOID = SDS_STRUCT) := by decide
    simp only [hns2, if_false]
    by_cases h4 : 4 ≤ rest.length
    · simp only [h4, if_true]
    · simp only [h4, if_false]
  · simp only [hv, if_false]
    by_cases hs : atoi_value ttxt = SDS_STRUCT
    · simp only [hs, if_true]
    · simp only [hs, if_false]
      cases cstr rest <;> simp

/-- One pass of the loop of `print_record` over the encoding of a well-formed
datum. -/
theorem print_record_loop_datum (fuel : Nat) (pre after : List Nat) (d : datum)
    (sz : Int) (indent : Nat) (hwf : d.well_formed) (h31 : (d.length : Int) < 2 ^ 31) :
    print_record_loop (fuel + 1) (pre ++ (d.encode ++ after)) sz indent pre.length =
      match datum_lines fuel indent d.name d.type d.length (d.value ++ after) with
      | .done es =>
        if (pre.length : Int) + d.encode.length < sz then
          walk_result.prepend es
            (print_record_loop fuel (pre ++ (d.encode ++ after)) sz indent
              ((pre.length : Int) + d.encode.length))
        else .done es
      | .fault => .fault
      | .out_of_budget => .out_of_budget := by
  obtain ⟨hname, htype, hL, hval, _⟩ := hwf
  have ht1 : 1 ≤ d.type := by
    simp at htype
    rcases htype with h | h | h | h | h | h | h | h <;> omega
  have ht28 : d.type < 28 := by
    simp at htype
    rcases htype with h | h | h | h | h | h | h | h <;> omega
  have hat := atoi_value_dec_text d.type ht1
  have hal := atoi_value_dec_text d.length hL
  have h := print_record_loop_fields fuel pre d.name (dec_text d.type) (dec_text d.length)
    (d.value ++ after) sz indent hname (dec_text_ne_zero _) (dec_text_ne_zero _)
    (by rw [hat]; have : (0:Int) < 2 ^ 31 := by norm_num
        omega)
    (by rw [hat]; have : (28:Int) < 2 ^ 31 := by norm_num
        omega)
    (by rw [hal]; have : (0:Int) < 2 ^ 31 := by norm_num
        omega)
    (by rw [hal]; exact h31)
  rw [← encode_eq, hat, hal] at h
  have hlen : ((fields d.name (dec_text d.type) (dec_text d.length)).length : Int) + (d.length : Int)
      = (d.encode.length : Int) := by
    rw [encode_length, fields_length, hval]; push_cast; ring
  have hlen2 : (pre.length : Int) + (fields d.name (dec_text d.type) (dec_text d.length)).length +
      (d.length : Int) = (pre.length : Int) + d.encode.length := by
    rw [← hlen]; ring
  rw [hlen2] at h
  exact h

theorem datum_lines_inline (fuel indent : Nat) (name_buf : List Nat) (t l : Int)
    (pl_data : List Nat) (v : entry_value) (ht : t ≠ 21)
    (hv : inline_value t pl_data = some v) :
    datum_lines fuel indent name_buf t l pl_data = .done [⟨indent, name_buf, t, l, v⟩] := by
  have : ¬ (t = SDS_STRUCT) := ht
  simp only [datum_lines, this, if_false, hv]

/-- The nested walk over a value made of two datums that are not STRUCT. -/
theorem print_record_loop_two (fuel : Nat) (c1 c2 : datum) (after : List Nat) (indent : Nat)
    (v1 v2 : entry_value)
    (hc1 : c1.well_formed) (hc2 : c2.well_formed) (h1 : c1.type ≠ 21) (h2 : c2.type ≠ 21)
    (hv1 : inline_value c1.type (c1.value ++ (c2.encode ++ after)) = some v1)
    (hv2 : inline_value c2.type (c2.value ++ after) = some v2)
    (hl1 : (c1.length : Int) < 2 ^ 31) (hl2 : (c2.length : Int) < 2 ^ 31) :
    print_record_loop (fuel + 2) (c1.encode ++ (c2.encode ++ after))
        ((c1.encode.length + c2.encode.length : Nat) : Int) indent 0 =
      .done [⟨indent, c1.name, c1.type, c1.length, v1⟩, ⟨indent, c2.name, c2.type, c2.length, v2⟩] := by
  have ht1 : (c1.type : Int) ≠ 21 := by exact_mod_cast h1
  have ht2 : (c2.type : Int) ≠ 21 := by exact_mod_cast h2
  have hp2 := encode_length_pos c2
  have s1 := print_record_loop_datum (fuel + 1) [] (c2.encode ++ after) c1
    ((c1.encode.length + c2.encode.length : Nat) : Int) indent hc1 hl1
  simp only [List.nil_append, List.length_nil, Nat.cast_zero, zero_add] at s1
  rw [s1, datum_lines_inline _ _ _ _ _ _ _ ht1 hv1]
  simp only
  have hlt : (c1.encode.length : Int) < ((c1.encode.length + c2.encode.length : Nat) : Int) := by
    push_cast; omega
  rw [if_pos hlt]
  have s2 := print_record_loop_datum fuel c1.encode after c2
    ((c1.encode.length + c2.encode.length : Nat) : Int) indent hc2 hl2
  rw [s2, datum_lines_inline _ _ _ _ _ _ _ ht2 hv2]
  simp only
  have hge : ¬ ((c1.encode.length : Int) + c2.encode.length <
      ((c1.encode.length + c2.encode.length : Nat) : Int)) := by
    push_cast; omega
  rw [if_neg hge]
  rfl

/-! ## Lemmas: the validator loop on `hang_record` -/

theorem size_field_length (size : Int) : (size_field size).length = 4 := rfl

theorem validate_loop_hang (fuel : Nat) :
    validate_loop [6, 0, 0, 0, 97, 98, 0, 50, 49, 0] fuel 4 6 = .out_of_budget ∧
    validate_loop [6, 0, 0, 0, 97, 98, 0, 50, 49, 0] fuel 8 2 = .out_of_budget := by
  induction fuel with
  | zero => constructor <;> rfl
  | succ n ih =>
    have h1 : scan_sds_datum (List.drop (4 : Int).toNat [6, 0, 0, 0, 97, 98, 0, 50, 49, 0]) 6 =
        some 4 := by rfl
    have h2 : scan_sds_datum (List.drop (8 : Int).toNat [6, 0, 0, 0, 97, 98, 0, 50, 49, 0]) 2 =
        some (-4) := by rfl
    constructor
    · simp only [validate_loop, h1]
      simpa using ih.2
    · simp only [validate_loop, h2]
      simpa using ih.1

theorem validate_sds_data_hang (fuel : Nat) :
    validate_sds_data fuel hang_record = .out_of_budget :=
  (validate_loop_hang fuel).1

/-! ## Lemmas: get_record and the descriptor -/

theorem get_record_desc (f : file_desc) (offset f_size : Int) :
    (get_record f offset f_size).1.fd = f.fd ∧ (get_record f offset f_size).1.bytes = f.bytes := by
  unfold get_record
  simp only [lseek, read]
  split_ifs <;> simp

/-- A payload made of well-formed datums validates with 0. -/
theorem validate_payload_ok (ds : List datum) (sds : sds_record) (fuel : Nat)
    (hwf : ∀ d ∈ ds, d.well_formed)
    (hbuf : sds.data_buffer = payload_of ds) (hsize : sds.size = (payload_of ds).length)
    (h31 : sds.size < 2 ^ 31) (hfuel : ds.length ≤ fuel) :
    validate_sds_data fuel sds = .ret 0 := by
  obtain ⟨k, rfl⟩ : ∃ k, fuel = ds.length + k := ⟨fuel - ds.length, by omega⟩
  have h := validate_loop_prefix ds hwf (size_field sds.size) [] k 0 (le_refl _)
    (by rw [hsize] at h31; simpa using h31)
  simp only [List.append_nil, size_field_length, add_zero] at h
  unfold validate_sds_data
  rw [hbuf]
  have h4 : ((4 : Nat) : Int) = 4 := rfl
  rw [h4] at h
  rw [hsize] at h ⊢
  rw [h]
  cases k <;> simp [validate_loop]

/-! ## Lemmas: the record walk on `print_hang_record` -/

theorem print_record_loop_hang (fuel : Nat) :
    print_record_loop fuel [97, 0, 54, 0, 45, 55, 0, 120, 0] 9 1 0 = .out_of_budget := by
  induction fuel with
  | zero => rfl
  | succ n ih =>
    have h := print_record_loop_fields n [] [97] [54] [45, 55] [120, 0] 9 1
      (by decide) (by decide) (by decide) (by decide) (by decide) (by decide) (by decide)
    have hl : datum_lines n 1 [97] (atoi_value [54]) (atoi_value [45, 55]) [120, 0] =
        .done [⟨1, [97], 6, -7, .text [120]⟩] := by rfl
    have hc : (([] : List Nat).length : Int) + ((fields [97] [54] [45, 55]).length : Int) +
        atoi_value [45, 55] = 0 := by decide
    have hb : ([] : List Nat) ++ (fields [97] [54] [45, 55] ++ [120, 0]) =
        [97, 0, 54, 0, 45, 55, 0, 120, 0] := by rfl
    rw [hl, hc, hb] at h
    simp only [List.length_nil, Nat.cast_zero] at h
    rw [h]
    simp only [show ((0 : Int) < 9) from by decide, if_true, ih]
    rfl

theorem print_sds_record_hang (fuel : Nat) :
    print_sds_record fuel print_hang_record = .out_of_budget := by
  cases fuel with
  | zero => rfl
  | succ n =>
    have h := print_record_loop_fields n [] [115] [50, 49] [57]
      [97, 0, 54, 0, 45, 55, 0, 120, 0] 16 0
      (by decide) (by decide) (by decide) (by decide) (by decide) (by decide) (by decide)
    have hl : datum_lines n 0 [115] (atoi_value [50, 49]) (atoi_value [57])
        [97, 0, 54, 0, 45, 55, 0, 120, 0] = .out_of_budget := by
      have h21 : atoi_value [50, 49] = SDS_STRUCT := by decide
      have h9 : atoi_value [57] = 9 := by decide
      simp only [datum_lines, h21, if_true, h9, print_record_loop_hang n]
      rfl
    rw [hl] at h
    exact h

/-! ## Lemmas: the main loop while no record is found -/

/-- In the searching state the loop passes offsets without a record one by
one and changes nothing but the offset and the file position. -/
theorem main_loop_skip (st_size : Int) (k : Nat) :
    ∀ (fuel : Nat) (st : main_state) (o : Nat),
      st.offset = o → st.searching = 1 → 2 < st.fh.fd → st.fh.bytes.length < 2 ^ 31 →
      to_int32 st_size = st.fh.bytes.length → (o : Int) + k ≤ st_size →
      (∀ i, o ≤ i → i < o + k → get_record_spec st.fh.bytes i = none) →
      ∃ fh1, fh1.fd = st.fh.fd ∧ fh1.bytes = st.fh.bytes ∧
        main_loop (fuel + k) st_size st =
          main_loop fuel st_size { st with fh := fh1, offset := st.offset + k } := by
  induction k with
  | zero =>
    intro fuel st o _ _ _ _ _ _ _
    exact ⟨st.fh, rfl, rfl, by simp⟩
  | succ k ih =>
    intro fuel st o ho hs hfd hlen hsz hle hnone
    obtain ⟨fh, offset, searching, rc, cc, out⟩ := st
    simp only at ho hs hfd hlen hsz hnone
    subst ho hs
    have hspec := get_record_eq_spec fh o hfd hlen
    rw [hnone o (le_refl _) (by omega)] at hspec
    have hdesc := get_record_desc fh (o : Int) (fh.bytes.length : Int)
    cases hg : get_record fh (o : Int) (fh.bytes.length : Int) with
    | mk fh2 r =>
      rw [hg] at hspec hdesc
      simp only at hspec hdesc
      subst hspec
      have hlt : ¬ ((o : Int) ≥ st_size) := by push_cast at hle; omega
      have hstep : main_loop (fuel + (k + 1)) st_size ⟨fh, o, 1, rc, cc, out⟩ =
          main_loop (fuel + k) st_size ⟨fh2, (o : Int) + 1, 1, rc, cc, out⟩ := by
        have : fuel + (k + 1) = (fuel + k) + 1 := by omega
        rw [this]
        simp only [main_loop, hlt, if_false, main_step, hsz, hg]
        simp
      obtain ⟨fh3, h3fd, h3b, h3⟩ := ih fuel ⟨fh2, (o : Int) + 1, 1, rc, cc, out⟩ (o + 1)
        (by simp) rfl (by simp only; rw [hdesc.1]; exact hfd)
        (by simp only; rw [hdesc.2]; exact hlen)
        (by simp only; rw [hdesc.2]; exact hsz)
        (by push_cast at hle ⊢; omega)
        (by
          intro i hi1 hi2
          simp only
          rw [hdesc.2]
          exact hnone i (by omega) (by omega))
      refine ⟨fh3, by rw [h3fd]; exact hdesc.1, by rw [h3b]; exact hdesc.2, ?_⟩
      rw [hstep, h3]
      congr 2
      push_cast
      ring

/-- The record walk over a payload that is the encoding of one datum with a
text value. -/
theorem print_sds_record_single (fuel : Nat) (d : datum) (sds : sds_record) (s : List Nat)
    (hwf : d.well_formed) (ht : d.type ≠ 21) (ht2 : d.type ≠ 22)
    (hs : cstr d.value = some s) (h31 : (d.length : Int) < 2 ^ 31)
    (hbuf : sds.data_buffer = d.encode) (hsize : sds.size = d.encode.length) :
    print_sds_record (fuel + 1) sds = .done [⟨0, d.name, d.type, d.length, .text s⟩] := by
  have h := print_record_loop_datum fuel [] [] d sds.size 0 hwf h31
  simp only [List.nil_append, List.append_nil, List.length_nil, Nat.cast_zero, zero_add] at h
  have hv : inline_value (d.type : Int) d.value = some (.text s) := by
    have : ¬ ((d.type : Int) = SDS_VOID) := by
      simp only [SDS_VOID]; exact_mod_cast ht2
    simp [inline_value, this, hs]
  rw [datum_lines_inline fuel 0 d.name d.type d.length d.value (.text s)
    (by exact_mod_cast ht) hv] at h
  simp only at h
  rw [if_neg (by rw [hsize]; omega)] at h
  unfold print_sds_record print_record
  rw [hbuf]
  exact h

/-! ## Lemmas: one pass of the main loop on a record -/

/-- The pass of the loop on a record that validates with 0, by the outcome of
the print of the record: when the print returns, `_searching` is 0, the record
is written with the previous `record_count` as its index, `record_count` has
grown by 1, the offset by 16 + size, and the `valid hdr` diagnostic is written
before the record exactly when `_searching` was 1. -/
theorem main_step_valid_record (fuel : Nat) (st_size : Int) (st : main_state)
    (fh1 : file_desc) (sds : sds_record)
    (hget : get_record st.fh st.offset (to_int32 st_size) = (fh1, some sds))
    (hval : validate_sds_data fuel sds = .ret 0) :
    main_step fuel st_size st =
      match print_sds_record fuel sds with
      | .done lines =>
        .ok { fh := fh1,
              offset := st.offset + (16 + sds.size),
              searching := 0,
              record_count := st.record_count + 1,
              corruption_count := st.corruption_count,
              output :=
                (if st.searching = 1 then st.output ++ [.valid_hdr st.offset] else st.output) ++
                  [.record st.record_count sds lines] }
      | .fault => .fault
      | .out_of_budget => .out_of_budget := by
  simp only [main_step, hget, hval, SDS_HDR_SIZE]
  cases print_sds_record fuel sds with
  | done lines =>
    simp only [ne_eq, not_true_eq_false, if_false, if_true]
    congr 2
    push_cast
    ring
  | fault => simp
  | out_of_budget => simp

theorem main_step_valid_record_witness :
    main_step 1 34 { main_init resync_file with offset := 10 } =
      .ok { fh := { resync_file with pos := 34 },
            offset := 34, searching := 0, record_count := 1, corruption_count := 0,
            output := [.valid_hdr 10,
              .record 0 { offset := 10, header := 1, h_spacer := 0, size := 8,
                          data_buffer := [97, 0, 49, 0, 50, 0, 120, 0] }
                [⟨0, [97], 1, 2, .text [120]⟩]] } :=
  main_step_valid_record 1 34 { main_init resync_file with offset := 10 }
    { resync_file with pos := 34 }
    { offset := 10, header := 1, h_spacer := 0, size := 8,
      data_buffer := [97, 0, 49, 0, 50, 0, 120, 0] } (by rfl) (by rfl)

/-- The pass of the loop on a record on which the validator returns a result
other than 0: no record is written, `record_count` is kept, `corruption_count`
grows by 1, the `sds_data err` diagnostic gives the position size - trailing,
`_searching` is set to 1 and the offset grows by 16 + size - trailing. -/
theorem main_step_corrupt_state (fuel : Nat) (st_size : Int) (st : main_state)
    (fh1 : file_desc) (sds : sds_record) (trailing : Int)
    (hget : get_record st.fh st.offset (to_int32 st_size) = (fh1, some sds))
    (hval : validate_sds_data fuel sds = .ret trailing) (ht : trailing ≠ 0) :
    main_step fuel st_size st =
      .ok { fh := fh1,
            offset := st.offset + (16 + sds.size - trailing),
            searching := 1,
            record_count := st.record_count,
            corruption_count := st.corruption_count + 1,
            output := st.output ++ [.sds_data_err st.offset (sds.size - trailing)] } := by
  simp only [main_step, hget, hval, SDS_HDR_SIZE, ht, ne_eq, not_false_eq_true, if_true,
    if_false]
  congr 2
  push_cast
  ring

/-! # Claims -/

/-- C1 (header soundness), evaluated on `stray_file`: with `f_size = 16` the
window at offset 0 has headerId 9 and spacer 1, so it is not accepted and none
of the three partial matches of the "suspected corrupt header" test holds;
`get_record` falls through to the payload read and returns a record. -/
theorem get_record_stray_header :
    (get_record stray_file 0 16).2 =
      some { offset := 0, header := 9, h_spacer := 1, size := 16,
             data_buffer := [97, 0, 49, 0, 50, 0, 120, 0, 97, 0, 49, 0, 50, 0, 120, 0] } ∧
    ¬ header_accepted (header_window stray_file.bytes 0) := by
  constructor
  · rfl
  · decide

/-- C2 (record reading equals its reference definition): on a file shorter
than 2^31 bytes, passed with its own size, and a valid descriptor, `get_record`
at a file offset returns what the reference definition gives: a record exactly
when the window is accepted and header plus declared payload lie inside the
file, with the fields of the window and the payload bytes after the header;
when fewer than declaredSize bytes are available it returns no record. -/
theorem get_record_matches_reference (f : file_desc) (offset : Nat) (hfd : 2 < f.fd)
    (hsize : f.bytes.length < 2 ^ 31) :
    (get_record f offset f.bytes.length).2 = get_record_spec f.bytes offset ∧
    (f.bytes.length < offset + 16 + hdr_field (header_window f.bytes offset) 8 →
      (get_record f offset f.bytes.length).2 = none) := by
  have h := get_record_eq_spec f offset hfd hsize
  refine ⟨h, fun hlt => ?_⟩
  rw [h]
  unfold get_record_spec
  rw [if_neg]
  intro hc
  omega

theorem get_record_matches_reference_witness :
    ((get_record sample_file (0 : Nat) sample_file.bytes.length).2 =
        get_record_spec sample_file.bytes 0 ∧
      (sample_file.bytes.length < 0 + 16 + hdr_field (header_window sample_file.bytes 0) 8 →
        (get_record sample_file (0 : Nat) sample_file.bytes.length).2 = none)) ∧
    get_record_spec sample_file.bytes 0 =
      some { offset := 0, header := 1, h_spacer := 0, size := 8,
             data_buffer := [97, 0, 49, 0, 50, 0, 120, 0] } :=
  ⟨get_record_matches_reference sample_file 0 (by decide) (by decide), by rfl⟩

/-- C3 (scanner round trip): on a window that starts with the encoding of a
well-formed datum and has `sz` at least the size of the encoding, `sz` being
an `int`, `scan_sds_datum` returns len(name)+1 + len(type text)+1 +
len(length text)+1 + L. -/
theorem scan_sds_datum_round_trip (d : datum) (tail : List Nat) (sz : Int)
    (hwf : d.well_formed) (hsz : (d.encode.length : Int) ≤ sz) (h31 : sz < 2 ^ 31) :
    scan_sds_datum (d.encode ++ tail) sz =
      some ((d.name.length + 1 + ((dec_text d.type).length + 1) +
        ((dec_text d.length).length + 1) + d.length : Nat) : Int) := by
  rw [scan_encode d tail sz hwf hsz h31, encode_length, hwf.2.2.2.1]

theorem scan_sds_datum_round_trip_witness :
    scan_sds_datum (sample_datum.encode ++ []) 8 =
      some ((sample_datum.name.length + 1 + ((dec_text sample_datum.type).length + 1) +
        ((dec_text sample_datum.length).length + 1) + sample_datum.length : Nat) : Int) :=
  scan_sds_datum_round_trip sample_datum [] 8 (by decide)
    (by simp [sample_datum, datum.encode, dec_text]) (by decide)

/-- C4 (validator round trip): on a record whose payload is the concatenation
of well-formed datum encodings (one or more; the empty payload too) and whose
size is the payload length, `validate_sds_data` returns 0 once the budget
covers one iteration per datum. -/
theorem validate_sds_data_round_trip (ds : List datum) (sds : sds_record) (fuel : Nat)
    (hwf : ∀ d ∈ ds, d.well_formed)
    (hbuf : sds.data_buffer = payload_of ds) (hsize : sds.size = (payload_of ds).length)
    (h31 : sds.size < 2 ^ 31) (hfuel : ds.length ≤ fuel) :
    validate_sds_data fuel sds = .ret 0 :=
  validate_payload_ok ds sds fuel hwf hbuf hsize h31 hfuel

theorem validate_sds_data_round_trip_witness :
    validate_sds_data 1 { offset := 0, header := 1, h_spacer := 0, size := 8,
                          data_buffer := [97, 0, 49, 0, 50, 0, 120, 0] } = .ret 0 :=
  validate_sds_data_round_trip [sample_datum] _ 1 (by decide)
    (by simp [payload_of, sample_datum, datum.encode, dec_text])
    (by simp [payload_of, sample_datum, datum.encode, dec_text]) (by decide) (by decide)

/-- C5 (out-of-bounds guard), evaluated on name "a", type "6", length text
"10" followed by 9 value bytes with `sz = 16`: the scanner returns 17, more
than `sz`. -/
theorem scan_sds_datum_overrun :
    scan_sds_datum [97, 0, 54, 0, 49, 48, 0, 1, 2, 3, 4, 5, 6, 7, 8, 9] 16 = some 17 := by
  rfl

/-- C6 (failure is signalled by zero), evaluated on a one-byte window without
a zero byte, which gives -4, on the window `a 0 6 0` that ends right after the
type field, which gives 2, and on name "a", type "1", length text "001", where
the loop ends before the third terminator and `strlen` is called on `NULL`. -/
theorem scan_sds_datum_missing_fields :
    scan_sds_datum [97] 1 = some (-4) ∧ scan_sds_datum [97, 0, 54, 0] 4 = some 2 ∧
    scan_sds_datum [97, 0, 49, 0, 48, 48, 49, 0, 120, 0] 10 = none := by
  refine ⟨?_, ?_, ?_⟩ <;> rfl

/-- C7 (declared length must be positive), evaluated on name "a", type "6"
(CHAR), length text "-1": the scanner returns 6. -/
theorem scan_sds_datum_negative_length :
    atoi [45, 49, 0] = some (-1) ∧ scan_sds_datum [97, 0, 54, 0, 45, 49, 0] 7 = some 6 := by
  constructor <;> rfl

/-- C8 (type rule): when the name is terminated, the byte after its terminator
lies inside the window and the type text parses to an integer that is not one
of 1, 6, 7, 16, 21, 22, 24, 27, `scan_sds_datum` returns 0. -/
theorem scan_sds_datum_type_rule (name m : List Nat) (sz t : Int)
    (hname : ∀ b ∈ name, b ≠ 0) (hsz : (name.length : Int) + 2 ≤ sz)
    (ht : atoi m = some t) (hk : t ∉ ([1, 6, 7, 16, 21, 22, 24, 27] : List Int)) :
    scan_sds_datum (name ++ 0 :: m) sz = some 0 :=
  scan_type_unknown name m sz t hname hsz ht (known_type_false hk)

theorem scan_sds_datum_type_rule_witness :
    scan_sds_datum ([97] ++ 0 :: [50, 56, 0, 50, 0, 120, 0]) 3 = some 0 :=
  scan_sds_datum_type_rule [97] [50, 56, 0, 50, 0, 120, 0] 3 28 (by decide) (by decide)
    (by rfl) (by decide)

/-- C9 (value-termination rule), evaluated on name "a", type "1" (INT), length
text "001" and the value `x 0`, with `sz = 10`: the three text fields are
terminated, the declared length 1 passes the length check, and the first zero
byte of the value is at index 1, not at index 0.  The scanner does not return
0: the window capped to 2 bytes runs out inside the length text, `pdata` is
still `NULL`, and `strlen` is called on it. -/
theorem scan_sds_datum_value_rule_null :
    fields [97] [49] [48, 48, 49] ++ [120, 0] = [97, 0, 49, 0, 48, 48, 49, 0, 120, 0] ∧
    atoi_value [49] = 1 ∧ atoi_value [48, 48, 49] = 1 ∧ strlen [120, 0] = some 1 ∧
    scan_sds_datum [97, 0, 49, 0, 48, 48, 49, 0, 120, 0] 10 = none := by
  refine ⟨?_, ?_, ?_, ?_, ?_⟩ <;> rfl

/-- C10 (corruption localization), evaluated on `garbage_record`: five
encodings of the well-formed sample datum (40 bytes) followed by 5 garbage
bytes without a zero byte, with declared size 45.  The validator returns 9,
and for no iteration budget does it return 5. -/
theorem validate_sds_data_garbage :
    (sample_datum.well_formed ∧
      garbage_record.data_buffer =
        payload_of (List.replicate 5 sample_datum) ++ [90, 90, 90, 90, 90] ∧
      (payload_of (List.replicate 5 sample_datum)).length = 40) ∧
    validate_sds_data 45 garbage_record = .ret 9 ∧
    ¬ ∃ fuel, validate_sds_data fuel garbage_record = .ret 5 := by
  have h9 : validate_sds_data 45 garbage_record = .ret 9 := by rfl
  refine ⟨⟨by decide, ?_, ?_⟩, h9, ?_⟩
  · simp [garbage_record, sample_payload, payload_of, List.replicate, sample_datum,
      datum.encode, dec_text]
  · simp [payload_of, List.replicate, sample_datum, datum.encode, dec_text]
  rintro ⟨fuel, h⟩
  unfold validate_sds_data at h h9
  rcases Nat.le_total fuel 45 with hle | hle
  · have := validate_loop_fuel _ _ _ _ _ _ h hle
    rw [h9] at this
    simp at this
  · have := validate_loop_fuel _ _ _ _ _ _ h9 hle
    rw [h] at this
    simp at this

/-- C11 (validator result range), evaluated on `overrun_record`, where the
validator returns -1, and on `hang_record`, where the loop does not end: no
iteration budget gives a result. -/
theorem validate_sds_data_out_of_range :
    validate_sds_data 16 overrun_record = .ret (-1) ∧
    ∀ fuel, validate_sds_data fuel hang_record = .out_of_budget := by
  refine ⟨by rfl, fun fuel => ?_⟩
  exact validate_sds_data_hang fuel

/-- C12 as stated fails on `struct_garbage_record`: the STRUCT value `ZZZZ` is
not a datum sequence (the scanner does not accept it, the record walk faults in
it), and the validator returns 0. -/
theorem validate_sds_data_struct_garbage :
    validate_sds_data 11 struct_garbage_record = .ret 0 ∧
    scan_sds_datum [90, 90, 90, 90] 4 = some (-4) ∧
    print_record 11 [90, 90, 90, 90] 4 1 = .fault := by
  refine ⟨?_, ?_, ?_⟩ <;> rfl

/-- C12 (amended): `validate_sds_data` does not descend into a STRUCT datum.
A record whose payload is a sequence of well-formed datums around a STRUCT
datum with a terminated name and a declared length L ≥ 1 validates with 0 for
every choice of the L value bytes of the STRUCT. -/
theorem validate_sds_data_struct_value_ignored (pre post : List datum) (name value : List Nat)
    (L : Nat) (sds : sds_record) (fuel : Nat)
    (hpre : ∀ d ∈ pre, d.well_formed) (hpost : ∀ d ∈ post, d.well_formed)
    (hname : ∀ b ∈ name, b ≠ 0) (hL : 1 ≤ L) (hvalue : value.length = L)
    (hbuf : sds.data_buffer = payload_of (pre ++ [⟨name, 21, L, value⟩] ++ post))
    (hsize : sds.size = sds.data_buffer.length) (h31 : sds.size < 2 ^ 31)
    (hfuel : pre.length + 1 + post.length ≤ fuel) :
    validate_sds_data fuel sds = .ret 0 := by
  have hS : (⟨name, 21, L, value⟩ : datum).well_formed := by
    refine ⟨hname, by simp, hL, hvalue, ?_⟩
    intro h
    simp at h
  have hwf : ∀ d ∈ pre ++ [⟨name, 21, L, value⟩] ++ post, d.well_formed := by
    intro d hd
    simp only [List.mem_append, List.mem_singleton] at hd
    rcases hd with (hd | hd) | hd
    · exact hpre d hd
    · rw [hd]; exact hS
    · exact hpost d hd
  refine validate_payload_ok (pre ++ [⟨name, 21, L, value⟩] ++ post) sds fuel hwf hbuf
    (by rw [hsize, hbuf]) h31 ?_
  simp only [List.length_append, List.length_singleton]
  omega

theorem validate_sds_data_struct_value_ignored_witness :
    validate_sds_data 1 struct_garbage_record = .ret 0 :=
  validate_sds_data_struct_value_ignored [] [] [115] [90, 90, 90, 90] 4 struct_garbage_record 1
    (by simp) (by simp) (by decide) (by decide) (by decide)
    (by simp [struct_garbage_record, payload_of, datum.encode, dec_text])
    (by rfl) (by decide) (by decide)

/-- C13 (nested decode): for a STRUCT datum whose value is the encodings of
two well-formed datums that are not STRUCT and whose declared length is their
total size, the record walk writes the STRUCT line, then the lines of the two
children one level deeper with their name, type code and length, and goes on
with the parent walk at the byte after the STRUCT's declared length.  The
values of the children must be readable: `inline_value` is defined on them. -/
theorem print_record_nested_decode (fuel : Nat) (pre after name : List Nat) (c1 c2 : datum)
    (sz : Int) (indent : Nat) (v1 v2 : entry_value)
    (hname : ∀ b ∈ name, b ≠ 0) (hc1 : c1.well_formed) (hc2 : c2.well_formed)
    (h1 : c1.type ≠ 21) (h2 : c2.type ≠ 21)
    (hv1 : inline_value c1.type (c1.value ++ (c2.encode ++ after)) = some v1)
    (hv2 : inline_value c2.type (c2.value ++ after) = some v2)
    (h31 : c1.encode.length + c2.encode.length < 2 ^ 31) :
    print_record_loop (fuel + 3)
        (pre ++ ((⟨name, 21, c1.encode.length + c2.encode.length, c1.encode ++ c2.encode⟩ :
          datum).encode ++ after)) sz indent pre.length =
      if (pre.length : Int) + (⟨name, 21, c1.encode.length + c2.encode.length,
          c1.encode ++ c2.encode⟩ : datum).encode.length < sz then
        walk_result.prepend
          [⟨indent, name, 21, ((c1.encode.length + c2.encode.length : Nat) : Int), .nested⟩,
           ⟨indent + 1, c1.name, c1.type, c1.length, v1⟩,
           ⟨indent + 1, c2.name, c2.type, c2.length, v2⟩]
          (print_record_loop (fuel + 2)
            (pre ++ ((⟨name, 21, c1.encode.length + c2.encode.length, c1.encode ++ c2.encode⟩ :
              datum).encode ++ after)) sz indent
            ((pre.length : Int) + (⟨name, 21, c1.encode.length + c2.encode.length,
              c1.encode ++ c2.encode⟩ : datum).encode.length))
      else
        .done
          [⟨indent, name, 21, ((c1.encode.length + c2.encode.length : Nat) : Int), .nested⟩,
           ⟨indent + 1, c1.name, c1.type, c1.length, v1⟩,
           ⟨indent + 1, c2.name, c2.type, c2.length, v2⟩] := by
  have hp1 := encode_length_pos c1
  have hl1 : c1.length ≤ c1.encode.length := by
    rw [encode_length, hc1.2.2.2.1]; omega
  have hl2 : c2.length ≤ c2.encode.length := by
    rw [encode_length, hc2.2.2.2.1]; omega
  have hp31 : (2 : Nat) ^ 31 = 2147483648 := by norm_num
  have hi31 : (2 : Int) ^ 31 = 2147483648 := by norm_num
  rw [hp31] at h31
  have hS : (⟨name, 21, c1.encode.length + c2.encode.length, c1.encode ++ c2.encode⟩ :
      datum).well_formed := by
    refine ⟨hname, by simp, by simp only; omega, by simp, ?_⟩
    intro h
    simp at h
  rw [print_record_loop_datum (fuel + 2) pre after _ sz indent hS
    (by simp only; rw [hi31]; omega)]
  have hnest : datum_lines (fuel + 2) indent name ((21 : Nat) : Int)
      ((c1.encode.length + c2.encode.length : Nat) : Int) (c1.encode ++ c2.encode ++ after) =
      .done [⟨indent, name, 21, ((c1.encode.length + c2.encode.length : Nat) : Int), .nested⟩,
        ⟨indent + 1, c1.name, c1.type, c1.length, v1⟩,
        ⟨indent + 1, c2.name, c2.type, c2.length, v2⟩] := by
    have := print_record_loop_two fuel c1 c2 after (indent + 1) v1 v2 hc1 hc2 h1 h2 hv1 hv2
      (by rw [hi31]; omega) (by rw [hi31]; omega)
    simp only [datum_lines, SDS_STRUCT, Nat.cast_ofNat, if_true, List.append_assoc, this]
    rfl
  simp only at hnest ⊢
  rw [hnest]

theorem print_record_nested_decode_witness :
    print_record_loop (0 + 3)
        ([] ++ ((⟨[115], 21, sample_datum.encode.length + sample_datum.encode.length,
          sample_datum.encode ++ sample_datum.encode⟩ : datum).encode ++ [])) 24 0
        ([] : List Nat).length =
      if ((([] : List Nat).length : Nat) : Int) +
          (⟨[115], 21, sample_datum.encode.length + sample_datum.encode.length,
            sample_datum.encode ++ sample_datum.encode⟩ : datum).encode.length < 24 then
        walk_result.prepend
          [⟨0, [115], 21,
              ((sample_datum.encode.length + sample_datum.encode.length : Nat) : Int), .nested⟩,
           ⟨0 + 1, sample_datum.name, sample_datum.type, sample_datum.length, .text [120]⟩,
           ⟨0 + 1, sample_datum.name, sample_datum.type, sample_datum.length, .text [120]⟩]
          (print_record_loop (0 + 2)
            ([] ++ ((⟨[115], 21, sample_datum.encode.length + sample_datum.encode.length,
              sample_datum.encode ++ sample_datum.encode⟩ : datum).encode ++ [])) 24 0
            (((([] : List Nat).length : Nat) : Int) +
              (⟨[115], 21, sample_datum.encode.length + sample_datum.encode.length,
                sample_datum.encode ++ sample_datum.encode⟩ : datum).encode.length))
      else
        .done
          [⟨0, [115], 21,
              ((sample_datum.encode.length + sample_datum.encode.length : Nat) : Int), .nested⟩,
           ⟨0 + 1, sample_datum.name, sample_datum.type, sample_datum.length, .text [120]⟩,
           ⟨0 + 1, sample_datum.name, sample_datum.type, sample_datum.length, .text [120]⟩] :=
  print_record_nested_decode 0 [] [] [115] sample_datum sample_datum 24 0 (.text [120])
    (.text [120]) (by decide) (by decide) (by decide) (by decide) (by decide)
    (by simp [inline_value, sample_datum, datum.encode, dec_text, cstr, SDS_VOID])
    (by simp [inline_value, sample_datum, cstr, SDS_VOID])
    (by simp [sample_datum, datum.encode, dec_text])

/-- C14 as stated fails on `nested_payload`: with type code 21 the walk writes
the STRUCT line and two child lines one level deeper; with type code 24 and the
same bytes it writes one line with an inline text value and no child line. -/
theorem print_record_struct_list_differs :
    print_record 3 (nested_payload 1) 24 0 =
      .done [⟨0, [115], 21, 16, .nested⟩, ⟨1, [97], 1, 2, .text [120]⟩,
             ⟨1, [97], 1, 2, .text [120]⟩] ∧
    print_record 3 (nested_payload 4) 24 0 = .done [⟨0, [115], 24, 16, .text [97]⟩] := by
  constructor <;> rfl

/-- C14 (amended): the record walk does not descend into a STRUCT_LIST datum.
For a datum of type 24 with a terminated name and L ≥ 1 value bytes, it writes
one line at the current level, with name, type code 24, length L and, inline,
the text from the start of the value to the first zero byte, no child line,
and goes on at the byte after the declared length. -/
theorem print_record_struct_list_inline (fuel : Nat) (pre after name value s : List Nat)
    (L : Nat) (sz : Int) (indent : Nat)
    (hname : ∀ b ∈ name, b ≠ 0) (hL : 1 ≤ L) (hvalue : value.length = L) (h31 : L < 2 ^ 31)
    (hs : cstr (value ++ after) = some s) :
    print_record_loop (fuel + 1) (pre ++ ((⟨name, 24, L, value⟩ : datum).encode ++ after))
        sz indent pre.length =
      if (pre.length : Int) + (⟨name, 24, L, value⟩ : datum).encode.length < sz then
        walk_result.prepend [⟨indent, name, 24, L, .text s⟩]
          (print_record_loop fuel (pre ++ ((⟨name, 24, L, value⟩ : datum).encode ++ after))
            sz indent ((pre.length : Int) + (⟨name, 24, L, value⟩ : datum).encode.length))
      else .done [⟨indent, name, 24, L, .text s⟩] := by
  have hS : (⟨name, 24, L, value⟩ : datum).well_formed := by
    refine ⟨hname, by simp, hL, hvalue, ?_⟩
    intro h
    simp at h
  rw [print_record_loop_datum fuel pre after _ sz indent hS (by exact_mod_cast h31)]
  have hv : inline_value ((24 : Nat) : Int) (value ++ after) = some (.text s) := by
    simp [inline_value, SDS_VOID, hs]
  have := datum_lines_inline fuel indent name ((24 : Nat) : Int) (L : Int) (value ++ after)
    (.text s) (by norm_num) hv
  simp only at this ⊢
  rw [this]
  rfl

theorem print_record_struct_list_inline_witness :
    print_record_loop (2 + 1)
        ([] ++ ((⟨[115], 24, 16, sample_datum.encode ++ sample_datum.encode⟩ : datum).encode ++ []))
        24 0 ([] : List Nat).length =
      if ((([] : List Nat).length : Nat) : Int) +
          (⟨[115], 24, 16, sample_datum.encode ++ sample_datum.encode⟩ : datum).encode.length
            < 24 then
        walk_result.prepend [⟨0, [115], 24, ((16 : Nat) : Int), .text [97]⟩]
          (print_record_loop 2
            ([] ++ ((⟨[115], 24, 16, sample_datum.encode ++ sample_datum.encode⟩ :
              datum).encode ++ []))
            24 0 (((([] : List Nat).length : Nat) : Int) +
              (⟨[115], 24, 16, sample_datum.encode ++ sample_datum.encode⟩ : datum).encode.length))
      else .done [⟨0, [115], 24, ((16 : Nat) : Int), .text [97]⟩] :=
  print_record_struct_list_inline 2 [] [] [115] (sample_datum.encode ++ sample_datum.encode) [97]
    16 24 0 (by decide) (by decide) (by simp [sample_datum, datum.encode, dec_text])
    (by norm_num) (by simp [sample_datum, datum.encode, dec_text, cstr])

/-- C15 (controller step, no record): when `get_record` yields nothing, one
pass of the loop sets `_searching` to 1, adds 1 to the offset, keeps
`record_count`, writes no record, and adds 1 to `corruption_count`, with the
`hdr_cor err` diagnostic at the offset, exactly when `_searching` was 0
(LOCKED) before. -/
theorem main_step_no_record (fuel : Nat) (st_size : Int) (st : main_state)
    (h : (get_record st.fh st.offset (to_int32 st_size)).2 = none) :
    ∃ st1, main_step fuel st_size st = .ok st1 ∧
      st1.searching = 1 ∧ st1.offset = st.offset + 1 ∧ st1.record_count = st.record_count ∧
      (st.searching = 0 →
        st1.corruption_count = st.corruption_count + 1 ∧
        st1.output = st.output ++ [.hdr_cor_err st.offset]) ∧
      (st.searching ≠ 0 →
        st1.corruption_count = st.corruption_count ∧ st1.output = st.output) := by
  cases hg : get_record st.fh st.offset (to_int32 st_size) with
  | mk fh1 r =>
    rw [hg] at h
    simp only at h
    subst h
    refine ⟨{ fh := fh1, offset := st.offset + 1, searching := 1,
              record_count := st.record_count,
              corruption_count :=
                if st.searching = 0 then st.corruption_count + 1 else st.corruption_count,
              output :=
                if st.searching = 0 then st.output ++ [.hdr_cor_err st.offset] else st.output },
      by simp only [main_step, hg], rfl, rfl, rfl, ?_, ?_⟩
    · intro hs
      simp [hs]
    · intro hs
      simp [hs]

theorem main_step_no_record_witness :
    ∃ st1, main_step 0 34 (main_init resync_file) = .ok st1 ∧
      st1.searching = 1 ∧ st1.offset = (main_init resync_file).offset + 1 ∧
      st1.record_count = (main_init resync_file).record_count ∧
      ((main_init resync_file).searching = 0 →
        st1.corruption_count = (main_init resync_file).corruption_count + 1 ∧
        st1.output = (main_init resync_file).output ++
          [.hdr_cor_err (main_init resync_file).offset]) ∧
      ((main_init resync_file).searching ≠ 0 →
        st1.corruption_count = (main_init resync_file).corruption_count ∧
        st1.output = (main_init resync_file).output) :=
  main_step_no_record 0 34 (main_init resync_file) (by rfl)

/-- C16 (controller step, valid record), evaluated on `print_hang_file` at
offset 0: `get_record` yields `print_hang_record`, `validate_sds_data` returns
0 on it, and the pass does not end within any budget, because
`print_sds_record` does not return: the nested walk of the STRUCT value adds
the length -7 to `ct` = 7 and starts again at 0. -/
theorem main_step_print_hangs :
    (get_record print_hang_file 0 (to_int32 32)).2 = some print_hang_record ∧
    validate_sds_data 1 print_hang_record = .ret 0 ∧
    (∀ fuel, print_sds_record fuel print_hang_record = .out_of_budget) ∧
    ∀ fuel, main_step fuel 32 (main_init print_hang_file) = .out_of_budget := by
  have hg : get_record (main_init print_hang_file).fh (main_init print_hang_file).offset
      (to_int32 32) = ({ print_hang_file with pos := 32 }, some print_hang_record) := by rfl
  have hv1 : validate_sds_data 1 print_hang_record = .ret 0 := by rfl
  refine ⟨by rfl, hv1, print_sds_record_hang, fun fuel => ?_⟩
  cases fuel with
  | zero => rfl
  | succ n =>
    have hv : validate_sds_data (n + 1) print_hang_record = .ret 0 := by
      unfold validate_sds_data at hv1 ⊢
      exact validate_loop_fuel _ _ _ _ _ _ hv1 (by omega)
    simp only [main_step, hg, hv, print_sds_record_hang (n + 1)]
    rfl

/-- C17 (controller step, corrupt data), evaluated on `tiny_file` and on
`garbage_file` at offset 0.  On `tiny_file` (declared size 1, payload `Z`) the
validator returns trailing 5, the diagnostic gives the position -4, and the
offset grows by 12, less than 16.  On `garbage_file` (40 well-formed bytes and
5 garbage bytes) the validator returns 9 and the offset grows by 52, which is
payload offset 36, inside the fifth scanned datum and not after it. -/
theorem main_step_corrupt_advance :
    validate_sds_data 2 { offset := 0, header := 1, h_spacer := 0, size := 1,
                          data_buffer := [90] } = .ret 5 ∧
    main_step 2 17 (main_init tiny_file) =
      .ok { fh := { tiny_file with pos := 17 },
            offset := 12, searching := 1, record_count := 0, corruption_count := 1,
            output := [.sds_data_err 0 (-4)] } ∧
    main_step 45 61 (main_init garbage_file) =
      .ok { fh := { garbage_file with pos := 61 },
            offset := 52, searching := 1, record_count := 0, corruption_count := 1,
            output := [.sds_data_err 0 36] } := by
  refine ⟨?_, ?_, ?_⟩ <;> rfl

/-- C18 as stated fails on `resync_file` (10 junk bytes, none of whose offsets
yields a record, then the minimal record): the run ends at offset 34 with one
record at offset 10, but with `corruption_count` 0 and no corruption
diagnostic, because the run starts in the searching state. -/
theorem sds_main_resync_count :
    (List.range 10).map (fun o => get_record_spec resync_file.bytes o) = List.replicate 10 none ∧
    sds_main 12 resync_file 34 =
      .ok { fh := { resync_file with pos := 34 },
            offset := 34, searching := 0, record_count := 1, corruption_count := 0,
            output := [.valid_hdr 10,
              .record 0 { offset := 10, header := 1, h_spacer := 0, size := 8,
                          data_buffer := [97, 0, 49, 0, 50, 0, 120, 0] }
                [⟨0, [97], 1, 2, .text [120]⟩],
              .end_of_file, .corruption_total 0] } := by
  constructor
  · decide
  · rfl

/-- C18 (amended): on every 34-byte file made of 10 junk bytes, none of whose
offsets yields a record, an accepted 16-byte header with declaredSize 8, and
the payload name "a", type "1", length "2", one non-zero value byte and its
terminator, the run started in the searching state at offset 0 passes the junk
without a corruption event (final `corruption_count` 0), writes the `valid
hdr` diagnostic at offset 10, writes exactly one record (index 0, record
offset 10, final `record_count` 1), and stops in the locked state with
offset 34. -/
theorem sds_main_resync (junk header : List Nat) (v : Nat) (fd : Int) (fuel : Nat)
    (hfd : 2 < fd) (hj : junk.length = 10) (hh : header.length = 16)
    (hacc : header_accepted header) (hsz : hdr_field header 8 = 8) (hv : v ≠ 0)
    (hnone : ∀ o, o < 10 →
      get_record_spec (junk ++ (header ++ [97, 0, 49, 0, 50, 0, v, 0])) o = none)
    (hfuel : 12 ≤ fuel) :
    ∃ fh1, fh1.fd = fd ∧ fh1.bytes = junk ++ (header ++ [97, 0, 49, 0, 50, 0, v, 0]) ∧
      sds_main fuel ⟨fd, junk ++ (header ++ [97, 0, 49, 0, 50, 0, v, 0]), 0⟩ 34 =
        .ok { fh := fh1, offset := 34, searching := 0, record_count := 1,
              corruption_count := 0,
              output := [.valid_hdr 10,
                .record 0 { offset := 10, header := hdr_field header 0,
                            h_spacer := hdr_field header 4, size := 8,
                            data_buffer := [97, 0, 49, 0, 50, 0, v, 0] }
                  [⟨0, [97], 1, 2, .text [v]⟩],
                .end_of_file, .corruption_total 0] } := by
  obtain ⟨f, rfl⟩ : ∃ f, fuel = f + 12 := ⟨fuel - 12, by omega⟩
  generalize hfile : junk ++ (header ++ [97, 0, 49, 0, 50, 0, v, 0]) = file at hnone ⊢
  have hflen : file.length = 34 := by
    rw [← hfile]; simp [hj, hh]
  have hp31 : (2 : Nat) ^ 31 = 2147483648 := by norm_num
  have h34 : to_int32 34 = ((34 : Nat) : Int) := to_int32_small 34 (by norm_num)
  -- the junk
  obtain ⟨fh1, h1fd, h1b, h1⟩ := main_loop_skip 34 10 (f + 2) (main_init ⟨fd, file, 0⟩) 0
    rfl rfl hfd (by simp only [main_init]; rw [hflen, hp31]; omega)
    (by simp only [main_init]; rw [hflen]; exact h34) (by norm_num)
    (fun i _ hi => hnone i (by omega))
  simp only [main_init] at h1fd h1b h1
  -- the record at offset 10
  have hwin : header_window file 10 = header := by
    unfold header_window
    rw [← hfile, ← hj, List.drop_left, ← hh, List.take_left]
  have hdata : (file.drop (10 + 16)).take (hdr_field header 8) = [97, 0, 49, 0, 50, 0, v, 0] := by
    have : file = (junk ++ header) ++ [97, 0, 49, 0, 50, 0, v, 0] := by rw [← hfile]; simp
    have hl : (junk ++ header).length = 10 + 16 := by simp [hj, hh]
    rw [this, ← hl, List.drop_left, hsz]
    rfl
  have hspec : get_record_spec file 10 =
      some { offset := 10, header := hdr_field header 0, h_spacer := hdr_field header 4,
             size := 8, data_buffer := [97, 0, 49, 0, 50, 0, v, 0] } := by
    unfold get_record_spec
    rw [hwin, hdata, hsz, if_pos ⟨hacc, by rw [hflen]⟩]
    rfl
  have hrec := get_record_eq_spec fh1 10 (by rw [h1fd]; exact hfd) (by rw [h1b, hflen, hp31]; omega)
  rw [h1b, hflen, hspec] at hrec
  have hdesc := get_record_desc fh1 ((10 : Nat) : Int) ((34 : Nat) : Int)
  cases hg : get_record fh1 ((10 : Nat) : Int) ((34 : Nat) : Int) with
  | mk fh2 r =>
    rw [hg] at hrec hdesc
    simp only at hrec hdesc
    subst hrec
    have hwf : (⟨[97], 1, 2, [v, 0]⟩ : datum).well_formed := by
      refine ⟨by simp, by simp, by simp, by simp, ?_⟩
      intro _
      simp [hv]
    have henc : (⟨[97], 1, 2, [v, 0]⟩ : datum).encode = [97, 0, 49, 0, 50, 0, v, 0] := by
      simp [datum.encode, dec_text]
    have hval : validate_sds_data (f + 1)
        { offset := 10, header := hdr_field header 0, h_spacer := hdr_field header 4,
          size := 8, data_buffer := [97, 0, 49, 0, 50, 0, v, 0] } = .ret 0 := by
      apply validate_payload_ok [⟨[97], 1, 2, [v, 0]⟩] _ (f + 1)
      · intro d hd
        simp only [List.mem_singleton] at hd
        rw [hd]; exact hwf
      · simp [payload_of, henc]
      · simp [payload_of, henc]
      · norm_num
      · simp
    have hprint : print_sds_record (f + 1)
        { offset := 10, header := hdr_field header 0, h_spacer := hdr_field header 4,
          size := 8, data_buffer := [97, 0, 49, 0, 50, 0, v, 0] } =
        .done [⟨0, [97], 1, 2, .text [v]⟩] := by
      have := print_sds_record_single f ⟨[97], 1, 2, [v, 0]⟩
        { offset := 10, header := hdr_field header 0, h_spacer := hdr_field header 4,
          size := 8, data_buffer := [97, 0, 49, 0, 50, 0, v, 0] } [v] hwf (by simp) (by simp)
        (by simp [cstr, hv]) (by norm_num) henc.symm (by rw [henc]; rfl)
      simpa using this
    refine ⟨fh2, by rw [hdesc.1, h1fd], by rw [hdesc.2, h1b], ?_⟩
    have hfuel2 : f + 12 = f + 2 + 10 := by omega
    unfold sds_main main_init
    rw [hfuel2, h1]
    have hstep : main_loop (f + 2) 34
        { fh := fh1, offset := 0 + ((10 : Nat) : Int), searching := 1, record_count := 0,
          corruption_count := 0, output := [] } =
        .ok { fh := fh2, offset := 34, searching := 0, record_count := 1, corruption_count := 0,
              output := [.valid_hdr 10,
                .record 0 { offset := 10, header := hdr_field header 0,
                            h_spacer := hdr_field header 4, size := 8,
                            data_buffer := [97, 0, 49, 0, 50, 0, v, 0] }
                  [⟨0, [97], 1, 2, .text [v]⟩],
                .end_of_file] } := by
      have e10 : (0 : Int) + ((10 : Nat) : Int) = ((10 : Nat) : Int) := by norm_num
      rw [e10]
      have hlt : ¬ (((10 : Nat) : Int) ≥ 34) := by norm_num
      simp only [main_loop, hlt, if_false, main_step, h34, hg, hval, hprint, SDS_HDR_SIZE]
      norm_num
    rw [hstep]
    rfl

theorem sds_main_resync_witness :
    ∃ fh1, fh1.fd = 3 ∧
      fh1.bytes = [255, 255, 255, 255, 255, 255, 255, 255, 255, 255] ++
        ([1, 0, 0, 0, 0, 0, 0, 0, 8, 0, 0, 0, 0, 0, 0, 0] ++ [97, 0, 49, 0, 50, 0, 120, 0]) ∧
      sds_main 12 ⟨3, [255, 255, 255, 255, 255, 255, 255, 255, 255, 255] ++
        ([1, 0, 0, 0, 0, 0, 0, 0, 8, 0, 0, 0, 0, 0, 0, 0] ++ [97, 0, 49, 0, 50, 0, 120, 0]), 0⟩ 34 =
        .ok { fh := fh1, offset := 34, searching := 0, record_count := 1,
              corruption_count := 0,
              output := [.valid_hdr 10,
                .record 0 { offset := 10,
                            header := hdr_field [1, 0, 0, 0, 0, 0, 0, 0, 8, 0, 0, 0, 0, 0, 0, 0] 0,
                            h_spacer := hdr_field [1, 0, 0, 0, 0, 0, 0, 0, 8, 0, 0, 0, 0, 0, 0, 0] 4,
                            size := 8,
                            data_buffer := [97, 0, 49, 0, 50, 0, 120, 0] }
                  [⟨0, [97], 1, 2, .text [120]⟩],
                .end_of_file, .corruption_total 0] } :=
  sds_main_resync [255, 255, 255, 255, 255, 255, 255, 255, 255, 255]
    [1, 0, 0, 0, 0, 0, 0, 0, 8, 0, 0, 0, 0, 0, 0, 0] 120 3 12 (by decide) (by decide) (by decide)
    (by decide) (by decide) (by decide) (by decide) (by decide)

/-- C19 (controller progress and termination), evaluated on `hang_file`: the
header at offset 0 is accepted, the record is `hang_record`, and
`validate_sds_data` does not return on it, so the run does not end within any
budget. -/
theorem sds_main_hangs :
    (get_record hang_file 0 (to_int32 22)).2 = some hang_record ∧
    (∀ fuel, validate_sds_data fuel hang_record = .out_of_budget) ∧
    ∀ fuel, sds_main fuel hang_file 22 = .out_of_budget := by
  have hg : get_record hang_file 0 (to_int32 22) =
      ({ hang_file with pos := 22 }, some hang_record) := by rfl
  have hv : ∀ fuel, validate_sds_data fuel hang_record = .out_of_budget :=
    fun fuel => validate_sds_data_hang fuel
  refine ⟨by rw [hg], hv, fun fuel => ?_⟩
  cases fuel with
  | zero => rfl
  | succ n =>
    have h0 : ¬ ((main_init hang_file).offset ≥ 22) := by decide
    have hg2 : get_record (main_init hang_file).fh (main_init hang_file).offset (to_int32 22) =
        ({ hang_file with pos := 22 }, some hang_record) := hg
    simp only [sds_main, main_loop, h0, if_false, main_step, hg2, hv n]

/-- C20 (the name check never rejects): taking the test on `name_length` out
of the scanner changes the result on no window, and a well-formed datum with
an empty name is accepted, the name counting for 1 byte of the total. -/
theorem scan_sds_datum_name_test (d : datum) (tail : List Nat) (sz : Int)
    (hname : d.name = []) (hwf : d.well_formed)
    (hsz : (d.encode.length : Int) ≤ sz) (h31 : sz < 2 ^ 31) :
    (∀ (buf : List Nat) (sz2 : Int),
      scan_sds_datum buf sz2 = scan_sds_datum_no_name_test buf sz2) ∧
    scan_sds_datum (d.encode ++ tail) sz =
      some ((1 + ((dec_text d.type).length + 1) + ((dec_text d.length).length + 1) +
        d.length : Nat) : Int) := by
  refine ⟨scan_sds_datum_eq_no_name_test, ?_⟩
  rw [scan_encode d tail sz hwf hsz h31, encode_length, hwf.2.2.2.1, hname]
  simp

theorem scan_sds_datum_name_test_witness :
    (∀ (buf : List Nat) (sz2 : Int),
      scan_sds_datum buf sz2 = scan_sds_datum_no_name_test buf sz2) ∧
    scan_sds_datum ((⟨[], 1, 2, [120, 0]⟩ : datum).encode ++ []) 7 =
      some ((1 + ((dec_text (⟨[], 1, 2, [120, 0]⟩ : datum).type).length + 1) +
        ((dec_text (⟨[], 1, 2, [120, 0]⟩ : datum).length).length + 1) +
        (⟨[], 1, 2, [120, 0]⟩ : datum).length : Nat) : Int) :=
  scan_sds_datum_name_test ⟨[], 1, 2, [120, 0]⟩ [] 7 (by rfl) (by decide)
    (by simp [datum.encode, dec_text]) (by decide)

end SdsRecover
